import Mathlib

/-!
Verification of the binary integrity and archive codec of this repository:
the STORE-only ZIP writer/reader (`ZipBuilder` / `parseStoredZip`), the
CRC-32 and SHA-256 primitives, and the DOS date-time codec.

Shallow embedding conventions:
* Bytes are `Nat` values below 256; buffers are `List Nat`.
* JavaScript 32-bit wraparound (`>>> 0`, `& 0xffffffff`) is rendered as
  explicit `% 4294967296`; 16-bit header fields as `% 65536`.
* Strings are represented by their UTF-8 byte sequences (`TextEncoder` /
  `TextDecoder` round-trip is the identity on the byte level).
* `Date` values are represented by their UTC components (`UtcDate`).
* Thrown `Error` objects of the reader are modelled by the inductive
  `ZipError`; each constructor corresponds to one distinct message string
  of the source.
-/

/-! ## Little-endian field encoding (models `DataView.setUint16/32(..., true)`) -/

/-- Two little-endian bytes of a 16-bit field, as written by `setUint16(off, n, true)`. -/
def le16 (n : Nat) : List Nat := [n % 256, n / 256 % 256]

/-- Four little-endian bytes of a 32-bit field, as written by `setUint32(off, n, true)`. -/
def le32 (n : Nat) : List Nat :=
  [n % 256, n / 256 % 256, n / 65536 % 256, n / 16777216 % 256]

/-- Little-endian 16-bit read at byte offset `i` (models `view.getUint16(i, true)`). -/
def readU16 (l : List Nat) (i : Nat) : Nat :=
  l.getD i 0 + 256 * l.getD (i + 1) 0

/-- Little-endian 32-bit read at byte offset `i` (models `view.getUint32(i, true)`). -/
def readU32 (l : List Nat) (i : Nat) : Nat :=
  l.getD i 0 + 256 * l.getD (i + 1) 0 + 65536 * l.getD (i + 2) 0 +
    16777216 * l.getD (i + 3) 0

/-! ## SHA-256 (packages/shared/src/utils/index.ts) -/

/-- The 64 SHA-256 round constants `K` of the source. -/
def shaK : List Nat :=
  [1116352408, 1899447441, 3049323471, 3921009573, 961987163, 1508970993,
   2453635748, 2870763221, 3624381080, 310598401, 607225278, 1426881987,
   1925078388, 2162078206, 2614888103, 3248222580, 3835390401, 4022224774,
   264347078, 604807628, 770255983, 1249150122, 1555081692, 1996064986,
   2554220882, 2821834349, 2952996808, 3210313671, 3336571891, 3584528711,
   113926993, 338241895, 666307205, 773529912, 1294757372, 1396182291,
   1695183700, 1986661051, 2177026350, 2456956037, 2730485921, 2820302411,
   3259730800, 3345764771, 3516065817, 3600352804, 4094571909, 275423344,
   430227734, 506948616, 659060556, 883997877, 958139571, 1322822218,
   1537002063, 1747873779, 1955562222, 2024104815, 2227730452, 2361852424,
   2428436474, 2756734187, 3204031479, 3329325298]

/-- The 8 working/state words `a..h` (also used for the running hash `H`). -/
structure Hash8 where
  a : Nat
  b : Nat
  c : Nat
  d : Nat
  e : Nat
  f : Nat
  g : Nat
  h : Nat
deriving Repr, DecidableEq

/-- Initial hash value `H0` of the source. -/
def shaH0 : Hash8 :=
  ⟨0x6a09e667, 0xbb67ae85, 0x3c6ef372, 0xa54ff53a, 0x510e527f, 0x9b05688c, 0x1f83d9ab, 0x5be0cd19⟩

/-- `rightRotate(value, amount)`: 32-bit right rotation. The source computes
`(value >>> amount) | (value << (32 - amount))` on the JS int32 lane; on
32-bit-bounded `Nat` values this is the masked disjunction below. -/
def rightRotate (v n : Nat) : Nat := ((v >>> n) ||| (v <<< (32 - n))) % 4294967296

/-- Schedule sigma0: `ROTR7 ^ ROTR18 ^ SHR3`. -/
def smallSig0 (x : Nat) : Nat := rightRotate x 7 ^^^ rightRotate x 18 ^^^ (x >>> 3)

/-- Schedule sigma1: `ROTR17 ^ ROTR19 ^ SHR10`. -/
def smallSig1 (x : Nat) : Nat := rightRotate x 17 ^^^ rightRotate x 19 ^^^ (x >>> 10)

/-- Round Sigma0 over `a`. -/
def bigSig0 (x : Nat) : Nat := rightRotate x 2 ^^^ rightRotate x 13 ^^^ rightRotate x 22

/-- Round Sigma1 over `e`. -/
def bigSig1 (x : Nat) : Nat := rightRotate x 6 ^^^ rightRotate x 11 ^^^ rightRotate x 25

/-- `ch = (e & f) ^ (~e & g)`; JS int32 complement `~e` is `e ^ 0xffffffff`
on 32-bit-bounded values. -/
def chFun (e f g : Nat) : Nat := (e &&& f) ^^^ ((e ^^^ 4294967295) &&& g)

/-- `maj = (a & b) ^ (a & c) ^ (b & c)`. -/
def majFun (a b c : Nat) : Nat := (a &&& b) ^^^ (a &&& c) ^^^ (b &&& c)

/-- Big-endian 32-bit word from four bytes (models `view.getUint32(i)` with
the default big-endian flag used by the SHA-256 code). -/
def beWord (b0 b1 b2 b3 : Nat) : Nat := b0 * 16777216 + b1 * 65536 + b2 * 256 + b3

/-- Big-endian serialization of a 32-bit word (models the
`(hash[i] >>> 24) & 0xff` ... byte extraction of the source). -/
def be32 (n : Nat) : List Nat :=
  [n / 16777216 % 256, n / 65536 % 256, n / 256 % 256, n % 256]

/-- The 16 big-endian message words `w[0..15]` of one 64-byte block. -/
def wordsOf : List Nat → List Nat
  | b0 :: b1 :: b2 :: b3 :: rest => beWord b0 b1 b2 b3 :: wordsOf rest
  | _ => []

/-- One step of the schedule recurrence
`w[t] = (w[t-16] + s0(w[t-15]) + w[t-7] + s1(w[t-2])) >>> 0`.
`prev` is the reversed list of words computed so far (length `t ≥ 16`), so
`prev.getD 0` is `w[t-1]`, `prev.getD 14` is `w[t-15]`, etc. -/
def nextW (prev : List Nat) : Nat :=
  (prev.getD 15 0 + smallSig0 (prev.getD 14 0) + prev.getD 6 0 +
    smallSig1 (prev.getD 1 0)) % 4294967296

/-- Iterate `nextW`, prepending each new word. -/
def extendW : Nat → List Nat → List Nat
  | 0, acc => acc
  | n + 1, acc => extendW n (nextW acc :: acc)

/-- The full 64-word schedule `w` of one block. -/
def scheduleOf (block : List Nat) : List Nat :=
  (extendW 48 (wordsOf block).reverse).reverse

/-- One compression round (the body of the source's `for t` loop):
computes `temp1`, `temp2` and rotates the working variables. -/
def roundStep (st : Hash8) (kw : Nat × Nat) : Hash8 :=
  { a := ((st.h + bigSig1 st.e + chFun st.e st.f st.g + kw.1 + kw.2) % 4294967296 +
          (bigSig0 st.a + majFun st.a st.b st.c) % 4294967296) % 4294967296
    b := st.a
    c := st.b
    d := st.c
    e := (st.d + (st.h + bigSig1 st.e + chFun st.e st.f st.g + kw.1 + kw.2) % 4294967296) %
          4294967296
    f := st.e
    g := st.f
    h := st.g }

/-- Process one 64-byte block: 64 rounds, then add into the running hash mod 2^32. -/
def processBlock (hs : Hash8) (block : List Nat) : Hash8 :=
  let fin := (shaK.zip (scheduleOf block)).foldl roundStep hs
  { a := (hs.a + fin.a) % 4294967296
    b := (hs.b + fin.b) % 4294967296
    c := (hs.c + fin.c) % 4294967296
    d := (hs.d + fin.d) % 4294967296
    e := (hs.e + fin.e) % 4294967296
    f := (hs.f + fin.f) % 4294967296
    g := (hs.g + fin.g) % 4294967296
    h := (hs.h + fin.h) % 4294967296 }

/-- Merkle–Damgård padding: `0x80`, zeros, then the 64-bit big-endian
message bit length; total length `(len + 9 + 63) & ~63`, i.e. the next
multiple of 64 with at least 9 bytes of padding. -/
def sha256Pad (msg : List Nat) : List Nat :=
  msg ++ [128] ++
    List.replicate ((msg.length + 9 + 63) / 64 * 64 - msg.length - 9) 0 ++
    be32 (msg.length * 8 / 4294967296) ++ be32 (msg.length * 8 % 4294967296)

/-- Split into consecutive 64-byte blocks; `n` is the block count
(the source iterates `i = 0, 64, ...` up to `paddedLength`). -/
def chunk64 : Nat → List Nat → List (List Nat)
  | 0, _ => []
  | n + 1, l => l.take 64 :: chunk64 n (l.drop 64)

/-- `sha256(bytes)`: the 32-byte digest. -/
def sha256Bytes (msg : List Nat) : List Nat :=
  let padded := sha256Pad msg
  let fin := (chunk64 (padded.length / 64) padded).foldl processBlock shaH0
  be32 fin.a ++ be32 fin.b ++ be32 fin.c ++ be32 fin.d ++
    be32 fin.e ++ be32 fin.f ++ be32 fin.g ++ be32 fin.h

/-- One lowercase hex digit (`Number.prototype.toString(16)` digits). -/
def toHexChar (n : Nat) : Char := Char.ofNat (if n < 10 then 48 + n else 87 + n)

/-- `byte.toString(16).padStart(2, '0')` for a byte value. -/
def byteToHex (b : Nat) : List Char := [toHexChar (b / 16), toHexChar (b % 16)]

/-- `toHex`: lowercase hex string of a byte sequence. -/
def bytesToHex (bs : List Nat) : String := String.mk (bs.map byteToHex).flatten

/-- UTF-8 bytes of one code point (the encoding `TextEncoder` produces). -/
def utf8Enc (c : Char) : List Nat :=
  let n := c.toNat
  if n < 128 then [n]
  else if n < 2048 then [192 + n / 64, 128 + n % 64]
  else if n < 65536 then [224 + n / 4096, 128 + n / 64 % 64, 128 + n % 64]
  else [240 + n / 262144, 128 + n / 4096 % 64, 128 + n / 64 % 64, 128 + n % 64]

/-- UTF-8 bytes of a string (models `TextEncoder.prototype.encode`). -/
def strBytes (s : String) : List Nat := (s.data.map utf8Enc).flatten

/-- `calculateSha256` on an already-normalized byte sequence (the result of
the source's `toUint8Array`, which maps every accepted input — string,
`ArrayBuffer`, or buffer view — to its bytes). -/
def calculateSha256Bytes (bs : List Nat) : String := bytesToHex (sha256Bytes bs)

/-- `calculateSha256` on a string payload. -/
def calculateSha256 (s : String) : String := calculateSha256Bytes (strBytes s)

/-! ## CRC-32 (src/unnamed/part_045, `createCrcTable` / `crc32`) -/

/-- One shift/xor round of the table construction:
`value = (value & 1) !== 0 ? 0xedb88320 ^ (value >>> 1) : value >>> 1`. -/
def crcRound (v : Nat) : Nat := if v % 2 = 1 then 3988292384 ^^^ (v / 2) else v / 2

/-- `crcTable[i]`: eight rounds applied to the byte value `i`
(the final `>>> 0` is a no-op on the bounded value). -/
def crcTableEntry (i : Nat) : Nat :=
  crcRound (crcRound (crcRound (crcRound (crcRound (crcRound (crcRound (crcRound i)))))))

/-- One step of the crc loop:
`crc = (crc >>> 8) ^ crcTable[(crc ^ data[i]) & 0xff]`. -/
def crcUpdate (crc b : Nat) : Nat := (crc / 256) ^^^ crcTableEntry ((crc ^^^ b) % 256)

/-- `crc32(data)`: IEEE CRC-32 (initial `0xffffffff`, final xor `0xffffffff`). -/
def crc32 (data : List Nat) : Nat := (data.foldl crcUpdate 4294967295) ^^^ 4294967295

/-! ## DOS date-time codec (src/unnamed/part_045, `clampYear` / `toDosDateTime`) -/

/-- The UTC components of a JS `Date`, as returned by its accessors:
`getUTCFullYear`, `getUTCMonth` (0-based), `getUTCDate` (day of month),
`getUTCHours`, `getUTCMinutes`, `getUTCSeconds`. -/
structure UtcDate where
  utcFullYear : Int
  utcMonth : Nat
  utcDate : Nat
  utcHours : Nat
  utcMinutes : Nat
  utcSeconds : Nat
deriving Repr, DecidableEq

/-- `clampYear`: clamp the year into `[1980, 2107]` (the `Number.isFinite`
guard of the source is vacuous for integer years). -/
def clampYear (year : Int) : Int :=
  if year < 1980 then 1980 else if year > 2107 then 2107 else year

/-- `toDosDateTime(date)`: the packed `(dosDate, dosTime)` pair,
`dosDate = ((year - 1980) << 9) | (month << 5) | day`,
`dosTime = (hours << 11) | (minutes << 5) | (seconds / 2)`,
with the clamped UTC year and 1-based month. -/
def toDosDateTime (d : UtcDate) : Nat × Nat :=
  (((clampYear d.utcFullYear - 1980).toNat <<< 9) ||| ((d.utcMonth + 1) <<< 5) ||| d.utcDate,
   (d.utcHours <<< 11) ||| (d.utcMinutes <<< 5) ||| (d.utcSeconds / 2))

/-! ## ZIP writer (src/unnamed/part_045, class `ZipBuilder`, lines 279-381) -/

/-- `ZipEntryRecord` of the source; `name` holds the UTF-8 bytes of the
entry name. -/
structure ZipEntryRecord where
  name : List Nat
  data : List Nat
  crc : Nat
  size : Nat
  offset : Nat
  dosDate : Nat
  dosTime : Nat
deriving Repr, DecidableEq

/-- The 30 fixed bytes of a local file header, fields in source order:
signature, version-needed, flag, compression, time, date, crc,
compressed size, uncompressed size, name length, extra length. -/
def lfhBytes (ver flag comp tim dat crc cs us nl el : Nat) : List Nat :=
  le32 67324752 ++ le16 ver ++ le16 flag ++ le16 comp ++ le16 tim ++ le16 dat ++
    le32 crc ++ le32 cs ++ le32 us ++ le16 nl ++ le16 el

/-- The local file header of an entry as `buildLocalSegments` emits it:
30 fixed bytes (version 20, flag 0, STORE, sizes both `entry.size`,
zero extra length) followed by the name bytes. -/
def localHeaderBytes (e : ZipEntryRecord) : List Nat :=
  lfhBytes 20 0 0 e.dosTime e.dosDate e.crc e.size e.size e.name.length 0 ++ e.name

/-- One local segment: header then raw payload. -/
def segmentBytes (e : ZipEntryRecord) : List Nat := localHeaderBytes e ++ e.data

/-- One central directory record as `buildCentralDirectory` emits it
(46 fixed bytes then the name bytes; offset field at byte 42). -/
def centralBytes (e : ZipEntryRecord) : List Nat :=
  le32 33639248 ++ le16 20 ++ le16 20 ++ le16 0 ++ le16 0 ++ le16 e.dosTime ++ le16 e.dosDate ++
    le32 e.crc ++ le32 e.size ++ le32 e.size ++ le16 e.name.length ++ le16 0 ++ le16 0 ++
    le16 0 ++ le16 0 ++ le32 0 ++ le32 e.offset ++ e.name

/-- The 22-byte end-of-central-directory record of `buildEndRecord`. -/
def endRecordBytes (count csize coff : Nat) : List Nat :=
  le32 101010256 ++ le16 0 ++ le16 0 ++ le16 count ++ le16 count ++
    le32 csize ++ le32 coff ++ le16 0

/-- `buildLocalSegments`: lays out the local segments in insertion order and
records each entry's resolved offset (the source mutates `entry.offset`;
here the updated entry list is returned alongside the bytes). -/
def buildLocalSegments : List ZipEntryRecord → Nat → List Nat × List ZipEntryRecord
  | [], _ => ([], [])
  | e :: es, off =>
    let rest := buildLocalSegments es (off + (segmentBytes e).length)
    (segmentBytes e ++ rest.1, { e with offset := off } :: rest.2)

/-- `generate` (and the `build` wrapper): local segments, then the central
directory, then the end record. Returns the buffer together with the
builder's entry list after the offset mutation. -/
def zipGenerate (es : List ZipEntryRecord) : List Nat × List ZipEntryRecord :=
  let loc := buildLocalSegments es 0
  let central := (loc.2.map centralBytes).flatten
  (loc.1 ++ central ++ endRecordBytes loc.2.length central.length loc.1.length, loc.2)

/-- `ZipBuilder.file(name, content)`: append an entry whose crc and size are
computed from the content bytes, offset unresolved (0), timestamps from the
current time `now`. The name is stored verbatim. -/
def mkZipEntry (nam content : List Nat) (now : UtcDate) : ZipEntryRecord :=
  { name := nam, data := content, crc := crc32 content, size := content.length,
    offset := 0, dosDate := (toDosDateTime now).1, dosTime := (toDosDateTime now).2 }

/-- The builder state after `file(name, content)`. -/
def zipFile (st : List ZipEntryRecord) (nam content : List Nat) (now : UtcDate) :
    List ZipEntryRecord :=
  st ++ [mkZipEntry nam content now]

/-- Add a list of (name, payload) pairs to a fresh builder in order. -/
def addAll (pairs : List (List Nat × List Nat)) (now : UtcDate) : List ZipEntryRecord :=
  pairs.foldl (fun st p => zipFile st p.1 p.2 now) []

/-- Path normalization of the companion builder's `addFile`
(src/unnamed/part_045, lines 139-141): every run of backslashes becomes a
single `/` (byte 47), then one leading `/` is stripped. The Boolean flag of
the helper records whether the previous byte was part of a backslash run. -/
def collapseBackslashRuns : Bool → List Nat → List Nat
  | _, [] => []
  | inRun, b :: rest =>
    if b = 92 then
      if inRun then collapseBackslashRuns true rest
      else 47 :: collapseBackslashRuns true rest
    else b :: collapseBackslashRuns false rest

/-- The full `addFile` name normalization: collapse backslash runs to `/`,
then strip one leading `/`. -/
def addFileNormalize (path : List Nat) : List Nat :=
  match collapseBackslashRuns false path with
  | 47 :: rest => rest
  | other => other

/-! ## ZIP reader (src/unnamed/part_045, `parseStoredZip`) -/

/-- The result map: `Map<string, Uint8Array>` keyed by UTF-8 name bytes. -/
abbrev ZipMap : Type := List (List Nat × List Nat)

/-- `Map.prototype.set`: update the value in place when the key exists
(keeping the original insertion position), otherwise append. -/
def mapSet (m : ZipMap) (k v : List Nat) : ZipMap :=
  match m with
  | [] => [(k, v)]
  | (k', v') :: rest => if k' = k then (k, v) :: rest else (k', v') :: mapSet rest k v

/-- `Map.prototype.get`. -/
def mapLookup (m : ZipMap) (k : List Nat) : Option (List Nat) :=
  match m with
  | [] => none
  | (k', v') :: rest => if k' = k then some v' else mapLookup rest k

/-- The thrown `Error`s of the reader, one constructor per distinct message:
`rangeError` models the `RangeError` a `DataView` read past the buffer end
throws; the others are `'Unsupported compression method in zip entry'`,
`'Truncated zip entry data'`, `'Zip entry size mismatch for ...'` and
`'CRC mismatch for zip entry ...'` (the last two carry the entry name). -/
inductive ZipError where
  | rangeError
  | unsupportedCompression
  | truncated
  | sizeMismatch (nam : List Nat)
  | crcMismatch (nam : List Nat)
deriving Repr, DecidableEq

/-- The scan loop of `parseStoredZip`. The source walks an absolute `offset`
that only ever increases; here `rem` is the unread suffix of the buffer
(`bytes` from `offset` on), so `offset + k` reads become reads at `k`.
`fuel` bounds the number of iterations; every iteration consumes at least
one byte, so `bytes.length + 1` iterations always suffice. The extra
`rem.length < 10` / `< 30` guards model the `RangeError` a header-field
read past the buffer end would throw in the source. -/
def parseLoop : Nat → List Nat → ZipMap → Except ZipError ZipMap
  | 0, _, entries => Except.ok entries
  | fuel + 1, rem, entries =>
    if rem.length < 4 then Except.ok entries
    else if readU32 rem 0 = 67324752 then
      if rem.length < 10 then Except.error ZipError.rangeError
      else if readU16 rem 8 ≠ 0 then Except.error ZipError.unsupportedCompression
      else if rem.length < 30 then Except.error ZipError.rangeError
      else if rem.length < 30 + readU16 rem 26 + readU16 rem 28 + readU32 rem 18 then
        Except.error ZipError.truncated
      else if ((rem.drop (30 + readU16 rem 26 + readU16 rem 28)).take (readU32 rem 18)).length
          ≠ readU32 rem 22 then
        Except.error (ZipError.sizeMismatch ((rem.drop 30).take (readU16 rem 26)))
      else if crc32 ((rem.drop (30 + readU16 rem 26 + readU16 rem 28)).take (readU32 rem 18))
          ≠ readU32 rem 14 then
        Except.error (ZipError.crcMismatch ((rem.drop 30).take (readU16 rem 26)))
      else
        parseLoop fuel (rem.drop (30 + readU16 rem 26 + readU16 rem 28 + readU32 rem 18))
          (mapSet entries ((rem.drop 30).take (readU16 rem 26))
            ((rem.drop (30 + readU16 rem 26 + readU16 rem 28)).take (readU32 rem 18)))
    else if readU32 rem 0 = 33639248 ∨ readU32 rem 0 = 101010256 then Except.ok entries
    else parseLoop fuel (rem.drop 1) entries

/-- `parseStoredZip(input)`. -/
def parseStoredZip (bytes : List Nat) : Except ZipError ZipMap :=
  parseLoop (bytes.length + 1) bytes []

instance {ε α : Type} [DecidableEq ε] [DecidableEq α] : DecidableEq (Except ε α) := fun x y =>
  match x, y with
  | Except.ok a, Except.ok b =>
    if h : a = b then Decidable.isTrue (by rw [h]) else Decidable.isFalse (by simp [h])
  | Except.error a, Except.error b =>
    if h : a = b then Decidable.isTrue (by rw [h]) else Decidable.isFalse (by simp [h])
  | Except.ok _, Except.error _ => Decidable.isFalse (by simp)
  | Except.error _, Except.ok _ => Decidable.isFalse (by simp)

/-! ## Byte-level length and read lemmas -/

theorem lfhBytes_length (v fl c tim dat cr cs us nl el : Nat) :
    (lfhBytes v fl c tim dat cr cs us nl el).length = 30 := rfl

theorem endRecordBytes_length (cnt cs co : Nat) : (endRecordBytes cnt cs co).length = 22 := rfl

theorem localHeaderBytes_length (e : ZipEntryRecord) :
    (localHeaderBytes e).length = 30 + e.name.length := by
  simp [localHeaderBytes, lfhBytes, le16, le32]
  omega

theorem segmentBytes_length (e : ZipEntryRecord) :
    (segmentBytes e).length = 30 + e.name.length + e.data.length := by
  simp [segmentBytes, localHeaderBytes_length]

theorem centralBytes_length (e : ZipEntryRecord) :
    (centralBytes e).length = 46 + e.name.length := by
  simp [centralBytes, le16, le32]
  omega

theorem getD_append_add (A B : List Nat) (i : Nat) :
    (A ++ B).getD (A.length + i) 0 = B.getD i 0 := by
  rw [List.getD_append_right A B 0 (A.length + i) (Nat.le_add_right _ _),
    Nat.add_sub_cancel_left]

theorem readU16_append_add (A B : List Nat) (i : Nat) :
    readU16 (A ++ B) (A.length + i) = readU16 B i := by
  unfold readU16
  rw [getD_append_add, show A.length + i + 1 = A.length + (i + 1) from rfl, getD_append_add]

theorem readU32_append_add (A B : List Nat) (i : Nat) :
    readU32 (A ++ B) (A.length + i) = readU32 B i := by
  unfold readU32
  rw [getD_append_add, show A.length + i + 1 = A.length + (i + 1) from rfl, getD_append_add,
    show A.length + i + 2 = A.length + (i + 2) from rfl, getD_append_add,
    show A.length + i + 3 = A.length + (i + 3) from rfl, getD_append_add]

theorem readU16_append_pos (A B : List Nat) (n i : Nat) (h : A.length = n) :
    readU16 (A ++ B) (n + i) = readU16 B i := by
  subst h; exact readU16_append_add A B i

theorem readU32_append_pos (A B : List Nat) (n i : Nat) (h : A.length = n) :
    readU32 (A ++ B) (n + i) = readU32 B i := by
  subst h; exact readU32_append_add A B i

theorem set_append_pos (A B : List Nat) (n k b : Nat) (h : A.length = n) :
    (A ++ B).set (n + k) b = A ++ B.set k b := by
  subst h
  rw [List.set_append, if_neg (by omega)]
  congr 1
  congr 1
  omega

/-! ## CRC-32 stays below 2^32 -/

theorem crcRound_lt {v : Nat} (hv : v < 4294967296) : crcRound v < 4294967296 := by
  unfold crcRound
  split
  · exact Nat.xor_lt_two_pow (n := 32) (by norm_num) (by omega)
  · omega

theorem crcTableEntry_lt {i : Nat} (hi : i < 4294967296) : crcTableEntry i < 4294967296 := by
  unfold crcTableEntry
  exact crcRound_lt (crcRound_lt (crcRound_lt (crcRound_lt (crcRound_lt (crcRound_lt
    (crcRound_lt (crcRound_lt hi)))))))

theorem crcUpdate_lt {c : Nat} (b : Nat) (hc : c < 4294967296) :
    crcUpdate c b < 4294967296 := by
  unfold crcUpdate
  exact Nat.xor_lt_two_pow (n := 32) (by omega) (crcTableEntry_lt (by omega))

theorem crcFold_lt (l : List Nat) : ∀ c, c < 4294967296 →
    l.foldl crcUpdate c < 4294967296 := by
  induction l with
  | nil => intro c hc; simpa using hc
  | cons b l ih => intro c hc; exact ih _ (crcUpdate_lt b hc)

theorem crc32_lt (l : List Nat) : crc32 l < 4294967296 := by
  unfold crc32
  exact Nat.xor_lt_two_pow (n := 32) (crcFold_lt l _ (by norm_num)) (by norm_num)

/-! ## Field reads from the emitted headers -/

theorem lfh_read_sig (v fl c tim dat cr cs us nl el : Nat) (suffix : List Nat) :
    readU32 (lfhBytes v fl c tim dat cr cs us nl el ++ suffix) 0 = 67324752 := by
  norm_num [lfhBytes, le16, le32, readU32, List.getD]

theorem lfh_read_comp (v fl c tim dat cr cs us nl el : Nat) (suffix : List Nat) :
    readU16 (lfhBytes v fl c tim dat cr cs us nl el ++ suffix) 8 = c % 65536 := by
  norm_num [lfhBytes, le16, le32, readU16, List.getD]
  omega

theorem lfh_read_crc (v fl c tim dat cr cs us nl el : Nat) (suffix : List Nat) :
    readU32 (lfhBytes v fl c tim dat cr cs us nl el ++ suffix) 14 = cr % 4294967296 := by
  norm_num [lfhBytes, le16, le32, readU32, List.getD]
  omega

theorem lfh_read_cs (v fl c tim dat cr cs us nl el : Nat) (suffix : List Nat) :
    readU32 (lfhBytes v fl c tim dat cr cs us nl el ++ suffix) 18 = cs % 4294967296 := by
  norm_num [lfhBytes, le16, le32, readU32, List.getD]
  omega

theorem lfh_read_us (v fl c tim dat cr cs us nl el : Nat) (suffix : List Nat) :
    readU32 (lfhBytes v fl c tim dat cr cs us nl el ++ suffix) 22 = us % 4294967296 := by
  norm_num [lfhBytes, le16, le32, readU32, List.getD]
  omega

theorem lfh_read_nl (v fl c tim dat cr cs us nl el : Nat) (suffix : List Nat) :
    readU16 (lfhBytes v fl c tim dat cr cs us nl el ++ suffix) 26 = nl % 65536 := by
  norm_num [lfhBytes, le16, le32, readU16, List.getD]
  omega

theorem lfh_read_el (v fl c tim dat cr cs us nl el : Nat) (suffix : List Nat) :
    readU16 (lfhBytes v fl c tim dat cr cs us nl el ++ suffix) 28 = el % 65536 := by
  norm_num [lfhBytes, le16, le32, readU16, List.getD]
  omega

theorem lfh_drop30 (v fl c tim dat cr cs us nl el : Nat) (suffix : List Nat) :
    (lfhBytes v fl c tim dat cr cs us nl el ++ suffix).drop 30 = suffix :=
  List.drop_left' (lfhBytes_length v fl c tim dat cr cs us nl el)

theorem central_read_sig (e : ZipEntryRecord) (suffix : List Nat) :
    readU32 (centralBytes e ++ suffix) 0 = 33639248 := by
  norm_num [centralBytes, le16, le32, readU32, List.getD]

theorem central_read_offset (e : ZipEntryRecord) (suffix : List Nat) :
    readU32 (centralBytes e ++ suffix) 42 = e.offset % 4294967296 := by
  norm_num [centralBytes, le16, le32, readU32, List.getD]
  omega

theorem endRec_read_sig (cnt cs co : Nat) : readU32 (endRecordBytes cnt cs co) 0 = 101010256 := by
  norm_num [endRecordBytes, le16, le32, readU32, List.getD]

theorem endRec_read_count1 (cnt cs co : Nat) :
    readU16 (endRecordBytes cnt cs co) 8 = cnt % 65536 := by
  norm_num [endRecordBytes, le16, le32, readU16, List.getD]
  omega

theorem endRec_read_count2 (cnt cs co : Nat) :
    readU16 (endRecordBytes cnt cs co) 10 = cnt % 65536 := by
  norm_num [endRecordBytes, le16, le32, readU16, List.getD]
  omega

theorem endRec_read_csize (cnt cs co : Nat) :
    readU32 (endRecordBytes cnt cs co) 12 = cs % 4294967296 := by
  norm_num [endRecordBytes, le16, le32, readU32, List.getD]
  omega

theorem endRec_read_coff (cnt cs co : Nat) :
    readU32 (endRecordBytes cnt cs co) 16 = co % 4294967296 := by
  norm_num [endRecordBytes, le16, le32, readU32, List.getD]
  omega

/-! ## Symbolic execution of one `parseStoredZip` loop iteration -/

theorem parseLoop_stop (rem : List Nat) (acc : ZipMap) (fuel : Nat)
    (h4 : 4 ≤ rem.length)
    (hsig : readU32 rem 0 = 33639248 ∨ readU32 rem 0 = 101010256) :
    parseLoop (fuel + 1) rem acc = Except.ok acc := by
  have hne : ¬ (readU32 rem 0 = 67324752) := by rcases hsig with h | h <;> omega
  simp only [parseLoop]
  rw [if_neg (by omega), if_neg hne, if_pos hsig]

theorem parseLoop_skipByte (rem : List Nat) (acc : ZipMap) (fuel : Nat)
    (h4 : 4 ≤ rem.length)
    (hb : rem.getD 0 0 % 256 ≠ 80) :
    parseLoop (fuel + 1) rem acc = parseLoop fuel (rem.drop 1) acc := by
  have hmod : readU32 rem 0 % 256 = rem.getD 0 0 % 256 := by unfold readU32; omega
  have h1 : ¬ (readU32 rem 0 = 67324752) := by
    intro h; rw [h] at hmod; omega
  have h2 : ¬ (readU32 rem 0 = 33639248 ∨ readU32 rem 0 = 101010256) := by
    rintro (h | h) <;> rw [h] at hmod <;> omega
  simp only [parseLoop]
  rw [if_neg (by omega), if_neg h1, if_neg h2]

/-- Skipping a run of bytes none of which can start a signature
(all three record signatures begin with byte `0x50`). -/
theorem parseLoop_skipAll (L : List Nat) : ∀ (rest : List Nat) (acc : ZipMap) (fuel : Nat),
    4 ≤ rest.length → (∀ b ∈ L, b % 256 ≠ 80) →
    parseLoop (fuel + L.length) (L ++ rest) acc = parseLoop fuel rest acc := by
  induction L with
  | nil => intro rest acc fuel _ _; simp
  | cons b L ih =>
    intro rest acc fuel h4 hb
    have hlen : (b :: (L ++ rest)).length = L.length + rest.length + 1 := by
      simp
    have hstep : parseLoop (fuel + L.length + 1) (b :: (L ++ rest)) acc =
        parseLoop (fuel + L.length) ((b :: (L ++ rest)).drop 1) acc := by
      apply parseLoop_skipByte _ _ _ (by simp [hlen]; omega)
      simpa using hb b (by simp)
    have hshape : fuel + (b :: L).length = fuel + L.length + 1 := by
      simp
      omega
    rw [List.cons_append, hshape, hstep]
    simpa using ih rest acc fuel h4 (fun x hx => hb x (by simp [hx]))

/-- One successful STORE-entry iteration, phrased on the raw header fields
exactly as the reader masks them. -/
theorem parseLoop_rawEntry (v fl tim dat cr cs us nl el fuel : Nat) (body : List Nat)
    (acc : ZipMap)
    (hfit : nl % 65536 + el % 65536 + cs % 4294967296 ≤ body.length)
    (hsz : ((body.drop (nl % 65536 + el % 65536)).take (cs % 4294967296)).length =
      us % 4294967296)
    (hcrc : crc32 ((body.drop (nl % 65536 + el % 65536)).take (cs % 4294967296)) =
      cr % 4294967296) :
    parseLoop (fuel + 1) (lfhBytes v fl 0 tim dat cr cs us nl el ++ body) acc =
      parseLoop fuel (body.drop (nl % 65536 + el % 65536 + cs % 4294967296))
        (mapSet acc (body.take (nl % 65536))
          ((body.drop (nl % 65536 + el % 65536)).take (cs % 4294967296))) := by
  have hlen : (lfhBytes v fl 0 tim dat cr cs us nl el ++ body).length = 30 + body.length := by
    simp [lfhBytes_length]
  have hdropN : ∀ k, (lfhBytes v fl 0 tim dat cr cs us nl el ++ body).drop (30 + k) =
      body.drop k := by
    intro k
    rw [← List.drop_drop, lfh_drop30]
  simp only [parseLoop]
  rw [if_neg (by omega), if_pos (lfh_read_sig v fl 0 tim dat cr cs us nl el body),
    if_neg (by omega)]
  rw [if_neg (by simp [lfh_read_comp v fl 0 tim dat cr cs us nl el body])]
  rw [if_neg (by omega)]
  rw [lfh_read_nl, lfh_read_el, lfh_read_cs, lfh_read_us, lfh_read_crc, lfh_drop30]
  rw [show 30 + nl % 65536 + el % 65536 = 30 + (nl % 65536 + el % 65536) by omega, hdropN]
  rw [show 30 + (nl % 65536 + el % 65536) + cs % 4294967296 =
    30 + (nl % 65536 + el % 65536 + cs % 4294967296) by omega, hdropN]
  rw [if_neg (by omega), if_neg (by simp [hsz]), if_neg (by simp [hcrc])]

/-- A declared payload end past the buffer end yields the truncation error. -/
theorem parseLoop_rawTruncated (v fl tim dat cr cs us nl el fuel : Nat) (body : List Nat)
    (acc : ZipMap)
    (htr : body.length < nl % 65536 + el % 65536 + cs % 4294967296) :
    parseLoop (fuel + 1) (lfhBytes v fl 0 tim dat cr cs us nl el ++ body) acc =
      Except.error ZipError.truncated := by
  have hlen : (lfhBytes v fl 0 tim dat cr cs us nl el ++ body).length = 30 + body.length := by
    simp [lfhBytes_length]
  simp only [parseLoop]
  rw [if_neg (by omega), if_pos (lfh_read_sig v fl 0 tim dat cr cs us nl el body),
    if_neg (by omega)]
  rw [if_neg (by simp [lfh_read_comp v fl 0 tim dat cr cs us nl el body])]
  rw [if_neg (by omega)]
  rw [lfh_read_nl, lfh_read_el, lfh_read_cs]
  rw [if_pos (by omega)]

/-- A payload of the declared size whose CRC-32 disagrees with the header
yields the CRC-mismatch error carrying the entry name. -/
theorem parseLoop_rawCrcErr (v fl tim dat cr cs us nl el fuel : Nat) (body : List Nat)
    (acc : ZipMap)
    (hfit : nl % 65536 + el % 65536 + cs % 4294967296 ≤ body.length)
    (hsz : ((body.drop (nl % 65536 + el % 65536)).take (cs % 4294967296)).length =
      us % 4294967296)
    (hcrc : crc32 ((body.drop (nl % 65536 + el % 65536)).take (cs % 4294967296)) ≠
      cr % 4294967296) :
    parseLoop (fuel + 1) (lfhBytes v fl 0 tim dat cr cs us nl el ++ body) acc =
      Except.error (ZipError.crcMismatch (body.take (nl % 65536))) := by
  have hlen : (lfhBytes v fl 0 tim dat cr cs us nl el ++ body).length = 30 + body.length := by
    simp [lfhBytes_length]
  have hdropN : ∀ k, (lfhBytes v fl 0 tim dat cr cs us nl el ++ body).drop (30 + k) =
      body.drop k := by
    intro k
    rw [← List.drop_drop, lfh_drop30]
  simp only [parseLoop]
  rw [if_neg (by omega), if_pos (lfh_read_sig v fl 0 tim dat cr cs us nl el body),
    if_neg (by omega)]
  rw [if_neg (by simp [lfh_read_comp v fl 0 tim dat cr cs us nl el body])]
  rw [if_neg (by omega)]
  rw [lfh_read_nl, lfh_read_el, lfh_read_cs, lfh_read_us, lfh_read_crc, lfh_drop30]
  rw [show 30 + nl % 65536 + el % 65536 = 30 + (nl % 65536 + el % 65536) by omega, hdropN]
  rw [if_neg (by omega), if_neg (by simp [hsz]), if_pos hcrc]

/-! ## Structure of the generated buffer -/

/-- The offset assignment `buildLocalSegments` performs on the entry list. -/
def assignOffsets : List ZipEntryRecord → Nat → List ZipEntryRecord
  | [], _ => []
  | e :: es, off => { e with offset := off } :: assignOffsets es (off + (segmentBytes e).length)

/-- Total byte length of all local segments. -/
def localLen (es : List ZipEntryRecord) : Nat :=
  (es.map fun e => (segmentBytes e).length).sum

/-- Total byte length of all central directory records. -/
def centralLen (es : List ZipEntryRecord) : Nat :=
  (es.map fun e => (centralBytes e).length).sum

/-- Byte offset at which entry `i`'s local file header begins. -/
def localStart (es : List ZipEntryRecord) (i : Nat) : Nat :=
  ((es.take i).map fun e => (segmentBytes e).length).sum

/-- Byte offset of central record `i` within the central directory. -/
def centralStart (es : List ZipEntryRecord) (i : Nat) : Nat :=
  ((es.take i).map fun e => (centralBytes e).length).sum

/-- The reader's accumulated map after inserting all entries in order. -/
def insertAll (acc : ZipMap) (es : List ZipEntryRecord) : ZipMap :=
  es.foldl (fun m e => mapSet m e.name e.data) acc

def dummyEntry : ZipEntryRecord := ⟨[], [], 0, 0, 0, 0, 0⟩

theorem segmentBytes_setOffset (e : ZipEntryRecord) (x : Nat) :
    segmentBytes { e with offset := x } = segmentBytes e := rfl

theorem setOffset_name (e : ZipEntryRecord) (x : Nat) :
    ({ e with offset := x } : ZipEntryRecord).name = e.name := rfl

theorem setOffset_data (e : ZipEntryRecord) (x : Nat) :
    ({ e with offset := x } : ZipEntryRecord).data = e.data := rfl

theorem setOffset_crc (e : ZipEntryRecord) (x : Nat) :
    ({ e with offset := x } : ZipEntryRecord).crc = e.crc := rfl

theorem setOffset_size (e : ZipEntryRecord) (x : Nat) :
    ({ e with offset := x } : ZipEntryRecord).size = e.size := rfl

theorem setOffset_dosDate (e : ZipEntryRecord) (x : Nat) :
    ({ e with offset := x } : ZipEntryRecord).dosDate = e.dosDate := rfl

theorem setOffset_dosTime (e : ZipEntryRecord) (x : Nat) :
    ({ e with offset := x } : ZipEntryRecord).dosTime = e.dosTime := rfl

theorem bls_fst (es : List ZipEntryRecord) : ∀ off : Nat,
    (buildLocalSegments es off).1 = (es.map segmentBytes).flatten := by
  induction es with
  | nil => intro off; rfl
  | cons e es ih => intro off; simp [buildLocalSegments, ih]

theorem bls_snd (es : List ZipEntryRecord) : ∀ off : Nat,
    (buildLocalSegments es off).2 = assignOffsets es off := by
  induction es with
  | nil => intro off; rfl
  | cons e es ih => intro off; simp [buildLocalSegments, assignOffsets, ih]

theorem assignOffsets_length (es : List ZipEntryRecord) : ∀ off : Nat,
    (assignOffsets es off).length = es.length := by
  induction es with
  | nil => intro off; rfl
  | cons e es ih => intro off; simp [assignOffsets, ih]

theorem assignOffsets_map_segmentBytes (es : List ZipEntryRecord) : ∀ off : Nat,
    (assignOffsets es off).map segmentBytes = es.map segmentBytes := by
  induction es with
  | nil => intro off; rfl
  | cons e es ih => intro off; simp [assignOffsets, ih, segmentBytes_setOffset]

theorem assignOffsets_centralLen (es : List ZipEntryRecord) : ∀ off : Nat,
    centralLen (assignOffsets es off) = centralLen es := by
  induction es with
  | nil => intro off; rfl
  | cons e es ih =>
    intro off
    simp [assignOffsets, centralLen, centralBytes_length] at ih ⊢
    exact ih _

theorem assignOffsets_idem (es : List ZipEntryRecord) : ∀ off : Nat,
    assignOffsets (assignOffsets es off) off = assignOffsets es off := by
  induction es with
  | nil => intro off; rfl
  | cons e es ih =>
    intro off
    simp only [assignOffsets, segmentBytes_setOffset]
    exact congrArg _ (ih _)

theorem assignOffsets_getD_offset (es : List ZipEntryRecord) : ∀ (off i : Nat),
    i < es.length →
    ((assignOffsets es off).getD i dummyEntry).offset = off + localStart es i := by
  induction es with
  | nil => intro off i hi; simp at hi
  | cons e es ih =>
    intro off i hi
    match i with
    | 0 => simp [assignOffsets, localStart]
    | i + 1 =>
      have := ih (off + (segmentBytes e).length) i (by simpa using hi)
      simp only [assignOffsets, List.getD_cons_succ, this, localStart, List.take_succ_cons,
        List.map_cons, List.sum_cons]
      omega

theorem flatten_map_segment_length (es : List ZipEntryRecord) :
    ((es.map segmentBytes).flatten).length = localLen es := by
  rw [List.length_flatten, List.map_map]
  rfl

theorem flatten_map_central_length (es : List ZipEntryRecord) :
    ((es.map centralBytes).flatten).length = centralLen es := by
  rw [List.length_flatten, List.map_map]
  rfl

theorem zipGenerate_eq (es : List ZipEntryRecord) :
    (zipGenerate es).1 =
      (es.map segmentBytes).flatten ++
        (((assignOffsets es 0).map centralBytes).flatten ++
          endRecordBytes es.length (centralLen es) (localLen es)) ∧
    (zipGenerate es).2 = assignOffsets es 0 := by
  simp only [zipGenerate]
  rw [bls_fst, bls_snd]
  refine ⟨?_, rfl⟩
  rw [List.append_assoc, assignOffsets_length, flatten_map_central_length,
    assignOffsets_centralLen, flatten_map_segment_length]

theorem length_le_localLen (es : List ZipEntryRecord) : es.length ≤ localLen es := by
  induction es with
  | nil => simp [localLen]
  | cons e es ih =>
    simp only [localLen, List.map_cons, List.sum_cons, List.length_cons,
      segmentBytes_length] at ih ⊢
    omega

/-! ## A successful iteration over one well-formed writer entry -/

theorem parseLoop_entryStep (e : ZipEntryRecord) (rest : List Nat) (acc : ZipMap) (fuel : Nat)
    (hn : e.name.length < 65536) (hs : e.size = e.data.length)
    (hdl : e.data.length < 4294967296) (hc : e.crc = crc32 e.data) :
    parseLoop (fuel + 1) (segmentBytes e ++ rest) acc =
      parseLoop fuel rest (mapSet acc e.name e.data) := by
  have hshape : segmentBytes e ++ rest =
      lfhBytes 20 0 0 e.dosTime e.dosDate e.crc e.size e.size e.name.length 0 ++
        (e.name ++ (e.data ++ rest)) := by
    simp [segmentBytes, localHeaderBytes, List.append_assoc]
  have hnl : e.name.length % 65536 = e.name.length := Nat.mod_eq_of_lt hn
  have hcs : e.size % 4294967296 = e.data.length := by rw [hs]; exact Nat.mod_eq_of_lt hdl
  have hcrcv : e.crc % 4294967296 = crc32 e.data := by
    rw [hc]; exact Nat.mod_eq_of_lt (crc32_lt e.data)
  have hname : (e.name ++ (e.data ++ rest)).take (e.name.length % 65536) = e.name := by
    rw [hnl]; exact List.take_left e.name _
  have hdropA : (e.name ++ (e.data ++ rest)).drop (e.name.length % 65536 + 0 % 65536) =
      e.data ++ rest := by
    rw [hnl, show e.name.length + 0 % 65536 = e.name.length by omega]
    exact List.drop_left e.name _
  have hpay : ((e.name ++ (e.data ++ rest)).drop (e.name.length % 65536 + 0 % 65536)).take
      (e.size % 4294967296) = e.data := by
    rw [hdropA, hcs]
    exact List.take_left e.data _
  have hdropAll : (e.name ++ (e.data ++ rest)).drop
      (e.name.length % 65536 + 0 % 65536 + e.size % 4294967296) = rest := by
    rw [hnl, hcs,
      show e.name.length + 0 % 65536 + e.data.length = e.name.length + e.data.length by omega,
      ← List.drop_drop, List.drop_left e.name]
    exact List.drop_left e.data rest
  have hfit : e.name.length % 65536 + 0 % 65536 + e.size % 4294967296 ≤
      (e.name ++ (e.data ++ rest)).length := by
    rw [hnl, hcs]
    simp
  have hsz : (((e.name ++ (e.data ++ rest)).drop (e.name.length % 65536 + 0 % 65536)).take
      (e.size % 4294967296)).length = e.size % 4294967296 := by
    rw [hpay, hcs]
  have hcrc : crc32 (((e.name ++ (e.data ++ rest)).drop
      (e.name.length % 65536 + 0 % 65536)).take (e.size % 4294967296)) =
      e.crc % 4294967296 := by
    rw [hpay, hcrcv]
  rw [hshape, parseLoop_rawEntry 20 0 e.dosTime e.dosDate e.crc e.size e.size e.name.length 0
    fuel _ acc hfit hsz hcrc, hdropAll, hname, hpay]

/-! ## Parsing all local segments, then stopping at the central directory -/

theorem parseLoop_entries (es : List ZipEntryRecord) : ∀ (tail : List Nat) (acc : ZipMap)
    (fuel : Nat),
    (∀ e ∈ es, e.name.length < 65536 ∧ e.size = e.data.length ∧
      e.data.length < 4294967296 ∧ e.crc = crc32 e.data) →
    parseLoop (fuel + es.length) ((es.map segmentBytes).flatten ++ tail) acc =
      parseLoop fuel tail (insertAll acc es) := by
  induction es with
  | nil => intro tail acc fuel _; simp [insertAll]
  | cons e es ih =>
    intro tail acc fuel hwf
    obtain ⟨he, hes⟩ : (e.name.length < 65536 ∧ e.size = e.data.length ∧
        e.data.length < 4294967296 ∧ e.crc = crc32 e.data) ∧
        ∀ x ∈ es, x.name.length < 65536 ∧ x.size = x.data.length ∧
          x.data.length < 4294967296 ∧ x.crc = crc32 x.data := by
      constructor
      · exact hwf e (by simp)
      · intro x hx; exact hwf x (by simp [hx])
    have hshape : ((e :: es).map segmentBytes).flatten ++ tail =
        segmentBytes e ++ ((es.map segmentBytes).flatten ++ tail) := by
      simp
    have hfuel : fuel + (e :: es).length = (fuel + es.length) + 1 := by simp; omega
    rw [hshape, hfuel,
      parseLoop_entryStep e _ acc (fuel + es.length) he.1 he.2.1 he.2.2.1 he.2.2.2,
      ih tail (mapSet acc e.name e.data) fuel hes]
    rfl

/-- Round trip at the entry-record level: parsing a generated archive
returns exactly the map obtained by inserting every entry in order. -/
theorem parse_generate (es : List ZipEntryRecord)
    (hwf : ∀ e ∈ es, e.name.length < 65536 ∧ e.size = e.data.length ∧
      e.data.length < 4294967296 ∧ e.crc = crc32 e.data) :
    parseStoredZip (zipGenerate es).1 = Except.ok (insertAll [] es) := by
  obtain ⟨hbuf, -⟩ := zipGenerate_eq es
  have htail4 : 4 ≤ (((assignOffsets es 0).map centralBytes).flatten ++
      endRecordBytes es.length (centralLen es) (localLen es)).length := by
    simp [endRecordBytes_length]
  have hsig : readU32 (((assignOffsets es 0).map centralBytes).flatten ++
      endRecordBytes es.length (centralLen es) (localLen es)) 0 = 33639248 ∨
      readU32 (((assignOffsets es 0).map centralBytes).flatten ++
        endRecordBytes es.length (centralLen es) (localLen es)) 0 = 101010256 := by
    cases hao : assignOffsets es 0 with
    | nil =>
      right
      simp [endRec_read_sig]
    | cons e' rest' =>
      left
      have hshape : ((e' :: rest').map centralBytes).flatten ++
          endRecordBytes es.length (centralLen es) (localLen es) =
          centralBytes e' ++ ((rest'.map centralBytes).flatten ++
            endRecordBytes es.length (centralLen es) (localLen es)) := by
        simp
      rw [hshape]
      exact central_read_sig e' _
  have hfe : es.length ≤ localLen es := length_le_localLen es
  have hlen2 : ((es.map segmentBytes).flatten ++
      (((assignOffsets es 0).map centralBytes).flatten ++
        endRecordBytes es.length (centralLen es) (localLen es))).length =
      localLen es + (((assignOffsets es 0).map centralBytes).flatten ++
        endRecordBytes es.length (centralLen es) (localLen es)).length := by
    rw [List.length_append, flatten_map_segment_length]
  unfold parseStoredZip
  rw [hbuf, hlen2]
  rw [show localLen es + (((assignOffsets es 0).map centralBytes).flatten ++
      endRecordBytes es.length (centralLen es) (localLen es)).length + 1 =
      (localLen es + (((assignOffsets es 0).map centralBytes).flatten ++
        endRecordBytes es.length (centralLen es) (localLen es)).length + 1 - es.length) +
        es.length by omega]
  rw [parseLoop_entries es _ [] _ hwf]
  rw [show localLen es + (((assignOffsets es 0).map centralBytes).flatten ++
      endRecordBytes es.length (centralLen es) (localLen es)).length + 1 - es.length =
      (localLen es + (((assignOffsets es 0).map centralBytes).flatten ++
        endRecordBytes es.length (centralLen es) (localLen es)).length - es.length) + 1
      by omega]
  exact parseLoop_stop _ _ _ htail4 hsig

/-! ## Map semantics (`Map.prototype.set` / `get`) -/

theorem mapLookup_mapSet (m : ZipMap) (k v n : List Nat) :
    mapLookup (mapSet m k v) n = if k = n then some v else mapLookup m n := by
  induction m with
  | nil =>
    by_cases h : k = n <;> simp [mapSet, mapLookup, h]
  | cons q rest ih =>
    obtain ⟨k', v'⟩ := q
    by_cases hk : k' = k
    · subst hk
      by_cases h : k' = n <;> simp [mapSet, mapLookup, h]
    · by_cases h1 : k' = n
      · subst h1
        have hkn : ¬ k = k' := fun h => hk h.symm
        simp [mapSet, mapLookup, hk, hkn]
      · simp [mapSet, mapLookup, hk, h1, ih]

theorem mapSet_notMem (m : ZipMap) (k v : List Nat) :
    (∀ p ∈ m, p.1 ≠ k) → mapSet m k v = m ++ [(k, v)] := by
  induction m with
  | nil => intro _; rfl
  | cons q rest ih =>
    intro h
    have hq : q.1 ≠ k := h q (by simp)
    obtain ⟨k', v'⟩ := q
    simp only [mapSet, if_neg hq]
    rw [ih (fun p hp => h p (by simp [hp]))]
    simp

theorem insertAll_nodup (es : List ZipEntryRecord) : ∀ acc : ZipMap,
    ((es.map fun e => e.name).Nodup) → (∀ p ∈ acc, ∀ e ∈ es, p.1 ≠ e.name) →
    insertAll acc es = acc ++ es.map fun e => (e.name, e.data) := by
  induction es with
  | nil => intro acc _ _; simp [insertAll]
  | cons e es ih =>
    intro acc hnd hdisj
    have hstep : insertAll acc (e :: es) = insertAll (mapSet acc e.name e.data) es := rfl
    have hset : mapSet acc e.name e.data = acc ++ [(e.name, e.data)] :=
      mapSet_notMem acc e.name e.data (fun p hp => hdisj p hp e (by simp))
    have hpair : (∀ x ∈ es, ¬ x.name = e.name) ∧ (es.map fun x => x.name).Nodup := by
      simpa using hnd
    have hnd' : (es.map fun x => x.name).Nodup := hpair.2
    have hhead : ∀ x ∈ es, e.name ≠ x.name := by
      intro x hx hcontra
      exact hpair.1 x hx hcontra.symm
    have hdisj' : ∀ p ∈ acc ++ [(e.name, e.data)], ∀ x ∈ es, p.1 ≠ x.name := by
      intro p hp x hx
      rcases List.mem_append.mp hp with h | h
      · exact hdisj p h x (by simp [hx])
      · simp at h
        rw [h]
        exact hhead x hx
    rw [hstep, hset, ih _ hnd' hdisj']
    simp

theorem mapLookup_insertAll (es : List ZipEntryRecord) : ∀ (acc : ZipMap) (n : List Nat),
    mapLookup (insertAll acc es) n =
      ((es.reverse.find? fun e => decide (e.name = n)).map (fun e => e.data)).or
        (mapLookup acc n) := by
  induction es with
  | nil => intro acc n; simp [insertAll]
  | cons e es ih =>
    intro acc n
    have hstep : insertAll acc (e :: es) = insertAll (mapSet acc e.name e.data) es := rfl
    rw [hstep, ih]
    have hrev : (e :: es).reverse = es.reverse ++ [e] := by simp
    rw [hrev, List.find?_append]
    by_cases hn : e.name = n
    · cases hfind : es.reverse.find? fun x => decide (x.name = n) with
      | none => simp [hfind, mapLookup_mapSet, hn, List.find?]
      | some x => simp [hfind, mapLookup_mapSet, hn, List.find?]
    · cases hfind : es.reverse.find? fun x => decide (x.name = n) with
      | none => simp [hfind, mapLookup_mapSet, hn, List.find?]
      | some x => simp [hfind, mapLookup_mapSet, hn, List.find?]

theorem mapLookup_self_nodup (pairs : List (List Nat × List Nat)) :
    ∀ p ∈ pairs, (pairs.map Prod.fst).Nodup → mapLookup pairs p.1 = some p.2 := by
  induction pairs with
  | nil => intro p hp _; simp at hp
  | cons q rest ih =>
    intro p hp hnd
    rcases List.mem_cons.mp hp with h | h
    · subst h
      simp [mapLookup]
    · have hpair : (∀ x : List Nat, (q.1, x) ∉ rest) ∧ (rest.map Prod.fst).Nodup := by
        simpa using hnd
      have hq : q.1 ≠ p.1 := by
        intro hcontra
        apply hpair.1 p.2
        rw [hcontra]
        simpa using h
      simp only [mapLookup, if_neg hq]
      exact ih p h hpair.2

/-! ## The builder `file` chain -/

theorem mkZipEntry_name (nam content : List Nat) (now : UtcDate) :
    (mkZipEntry nam content now).name = nam := rfl

theorem mkZipEntry_data (nam content : List Nat) (now : UtcDate) :
    (mkZipEntry nam content now).data = content := rfl

theorem addAll_eq (pairs : List (List Nat × List Nat)) (now : UtcDate) :
    addAll pairs now = pairs.map fun p => mkZipEntry p.1 p.2 now := by
  have key : ∀ (ps : List (List Nat × List Nat)) (st : List ZipEntryRecord),
      ps.foldl (fun st p => zipFile st p.1 p.2 now) st =
        st ++ ps.map fun p => mkZipEntry p.1 p.2 now := by
    intro ps
    induction ps with
    | nil => intro st; simp
    | cons q ps ih =>
      intro st
      simp only [List.foldl_cons, List.map_cons]
      rw [ih]
      simp [zipFile]
  simpa using key pairs []

/-! ## CRC-32 single-byte sensitivity -/

set_option maxRecDepth 10000

theorem crcTable_nodup : ((List.range 256).map crcTableEntry).Nodup := by decide

theorem crcTable_high_nodup :
    ((List.range 256).map fun i => crcTableEntry i / 16777216).Nodup := by decide

theorem crcTable_inj {i j : Nat} (hi : i < 256) (hj : j < 256)
    (h : crcTableEntry i = crcTableEntry j) : i = j :=
  List.inj_on_of_nodup_map crcTable_nodup (List.mem_range.mpr hi) (List.mem_range.mpr hj) h

theorem crcTable_high_inj {i j : Nat} (hi : i < 256) (hj : j < 256)
    (h : crcTableEntry i / 16777216 = crcTableEntry j / 16777216) : i = j :=
  List.inj_on_of_nodup_map crcTable_high_nodup (List.mem_range.mpr hi)
    (List.mem_range.mpr hj) h

theorem xor_mod_256 (x y : Nat) : (x ^^^ y) % 256 = x % 256 ^^^ y % 256 := by
  apply Nat.eq_of_testBit_eq
  intro i
  rw [show (256 : Nat) = 2 ^ 8 by norm_num]
  simp only [Nat.testBit_mod_two_pow, Nat.testBit_xor]
  by_cases h : i < 8 <;> simp [h]

theorem xor_div_two_pow (x y k : Nat) : (x ^^^ y) / 2 ^ k = x / 2 ^ k ^^^ y / 2 ^ k := by
  rw [← Nat.shiftRight_eq_div_pow, ← Nat.shiftRight_eq_div_pow, ← Nat.shiftRight_eq_div_pow]
  apply Nat.eq_of_testBit_eq
  intro i
  simp [Nat.testBit_shiftRight, Nat.testBit_xor]

theorem xor_left_cancel {a x y : Nat} (h : a ^^^ x = a ^^^ y) : x = y := by
  rw [← Nat.xor_cancel_left a x, h, Nat.xor_cancel_left]

theorem xor_right_cancel {x y a : Nat} (h : x ^^^ a = y ^^^ a) : x = y := by
  apply xor_left_cancel (a := a)
  rw [Nat.xor_comm a x, Nat.xor_comm a y]
  exact h

theorem crcUpdate_byte_inj {c b b' : Nat} (hb : b < 256) (hb' : b' < 256) (hne : b ≠ b') :
    crcUpdate c b ≠ crcUpdate c b' := by
  intro h
  unfold crcUpdate at h
  have hidx : (c ^^^ b) % 256 ≠ (c ^^^ b') % 256 := by
    rw [xor_mod_256, xor_mod_256, Nat.mod_eq_of_lt hb, Nat.mod_eq_of_lt hb']
    intro h2
    exact hne (xor_left_cancel h2)
  exact hidx (crcTable_inj (Nat.mod_lt _ (by norm_num)) (Nat.mod_lt _ (by norm_num))
    (xor_left_cancel h))

theorem crcUpdate_crc_inj {c c' : Nat} (b : Nat) (hc : c < 4294967296)
    (hc' : c' < 4294967296) (hne : c ≠ c') : crcUpdate c b ≠ crcUpdate c' b := by
  intro h
  unfold crcUpdate at h
  by_cases hidx : (c ^^^ b) % 256 = (c' ^^^ b) % 256
  · have hlow : c % 256 = c' % 256 := by
      rw [xor_mod_256, xor_mod_256] at hidx
      exact xor_right_cancel hidx
    have hhi : c / 256 = c' / 256 := by
      rw [hidx] at h
      exact xor_right_cancel h
    omega
  · have hdiv : (c / 256 ^^^ crcTableEntry ((c ^^^ b) % 256)) / 2 ^ 24 =
        (c' / 256 ^^^ crcTableEntry ((c' ^^^ b) % 256)) / 2 ^ 24 := by rw [h]
    have hz : c / 256 / 2 ^ 24 = 0 := Nat.div_eq_of_lt (by norm_num at *; omega)
    have hz' : c' / 256 / 2 ^ 24 = 0 := Nat.div_eq_of_lt (by norm_num at *; omega)
    rw [xor_div_two_pow, xor_div_two_pow, hz, hz', Nat.zero_xor, Nat.zero_xor] at hdiv
    exact hidx (crcTable_high_inj (Nat.mod_lt _ (by norm_num)) (Nat.mod_lt _ (by norm_num))
      (by rw [show (16777216 : Nat) = 2 ^ 24 by norm_num]; exact hdiv))

theorem crcRaw_ne (l : List Nat) : ∀ {c c' : Nat}, c < 4294967296 → c' < 4294967296 →
    c ≠ c' → l.foldl crcUpdate c ≠ l.foldl crcUpdate c' := by
  induction l with
  | nil => intro c c' _ _ h; simpa using h
  | cons b l ih =>
    intro c c' hc hc' hne
    simp only [List.foldl_cons]
    exact ih (crcUpdate_lt b hc) (crcUpdate_lt b hc') (crcUpdate_crc_inj b hc hc' hne)

theorem crcRaw_middle_ne (A B : List Nat) (x y c : Nat) (hx : x < 256) (hy : y < 256)
    (hne : x ≠ y) (hc : c < 4294967296) :
    (A ++ x :: B).foldl crcUpdate c ≠ (A ++ y :: B).foldl crcUpdate c := by
  rw [List.foldl_append, List.foldl_append]
  simp only [List.foldl_cons]
  have hc0 : A.foldl crcUpdate c < 4294967296 := crcFold_lt A c hc
  exact crcRaw_ne B (crcUpdate_lt _ hc0) (crcUpdate_lt _ hc0) (crcUpdate_byte_inj hx hy hne)

/-- Replacing one byte of `data` by a different byte value always changes
the CRC-32 checksum. -/
theorem crc32_set_ne (data : List Nat) (p b' : Nat) (hp : p < data.length)
    (hb : data.getD p 0 < 256) (hb' : b' < 256) (hne : data.getD p 0 ≠ b') :
    crc32 (data.set p b') ≠ crc32 data := by
  have hsplit : data.take p ++ data.getD p 0 :: data.drop (p + 1) = data := by
    rw [List.getD_eq_getElem data 0 hp, ← List.drop_eq_getElem_cons hp,
      List.take_append_drop]
  have hset : data.take p ++ b' :: data.drop (p + 1) = data.set p b' := by
    rw [List.set_eq_take_append_cons_drop, if_pos hp]
  intro h
  apply crcRaw_middle_ne (data.take p) (data.drop (p + 1)) b' (data.getD p 0) 4294967295
    hb' hb (fun hcontra => hne hcontra.symm) (by norm_num)
  rw [hset, hsplit]
  unfold crc32 at h
  exact xor_right_cancel h

/-! ## Bit-packing facts for the DOS date-time codec -/

theorem shiftRight_or_distrib (x y k : Nat) : (x ||| y) >>> k = (x >>> k) ||| (y >>> k) := by
  apply Nat.eq_of_testBit_eq
  intro i
  simp [Nat.testBit_shiftRight, Nat.testBit_or]

theorem shiftLeft_shiftRight_self (a n : Nat) : (a <<< n) >>> n = a := by
  apply Nat.eq_of_testBit_eq
  intro i
  simp [Nat.testBit_shiftRight, Nat.testBit_shiftLeft, Nat.le_add_right,
    Nat.add_sub_cancel_left]

theorem mod_two_pow_or (x y n : Nat) : (x ||| y) % 2 ^ n = x % 2 ^ n ||| y % 2 ^ n := by
  apply Nat.eq_of_testBit_eq
  intro i
  simp only [Nat.testBit_mod_two_pow, Nat.testBit_or]
  by_cases h : i < n <;> simp [h]

theorem shiftLeft_mod_two_pow_self (a n : Nat) : (a <<< n) % 2 ^ n = 0 := by
  rw [Nat.shiftLeft_eq]
  exact Nat.mul_mod_left a (2 ^ n)

theorem shiftRight_eq_zero_of_lt {b n : Nat} (hb : b < 2 ^ n) : b >>> n = 0 := by
  rw [Nat.shiftRight_eq_div_pow]
  exact Nat.div_eq_of_lt hb

/-- `(a <<< n) | b` with `b < 2^n` packs two disjoint bit fields:
it equals `a * 2^n + b`. -/
theorem orPack (a b n : Nat) (hb : b < 2 ^ n) : (a <<< n) ||| b = a * 2 ^ n + b := by
  have h1 : ((a <<< n) ||| b) / 2 ^ n = a := by
    rw [← Nat.shiftRight_eq_div_pow, shiftRight_or_distrib, shiftLeft_shiftRight_self,
      shiftRight_eq_zero_of_lt hb, Nat.or_zero]
  have h2 : ((a <<< n) ||| b) % 2 ^ n = b := by
    rw [mod_two_pow_or, shiftLeft_mod_two_pow_self, Nat.mod_eq_of_lt hb, Nat.zero_or]
  calc (a <<< n) ||| b
      = 2 ^ n * (((a <<< n) ||| b) / 2 ^ n) + ((a <<< n) ||| b) % 2 ^ n :=
        (Nat.div_add_mod _ _).symm
    _ = a * 2 ^ n + b := by rw [h1, h2, Nat.mul_comm]

/-- The packed DOS fields as plain arithmetic, under the ranges every JS
`Date` satisfies for its UTC components. -/
theorem toDosDateTime_arith (dt : UtcDate) (hm : dt.utcMonth ≤ 11) (hd : dt.utcDate ≤ 31)
    (hh : dt.utcHours ≤ 23) (hmin : dt.utcMinutes ≤ 59) (hsec : dt.utcSeconds ≤ 59) :
    (toDosDateTime dt).1 = (clampYear dt.utcFullYear - 1980).toNat * 512 +
      (dt.utcMonth + 1) * 32 + dt.utcDate ∧
    (toDosDateTime dt).2 = dt.utcHours * 2048 + dt.utcMinutes * 32 + dt.utcSeconds / 2 := by
  constructor
  · show ((clampYear dt.utcFullYear - 1980).toNat <<< 9) ||| ((dt.utcMonth + 1) <<< 5) |||
      dt.utcDate = _
    rw [Nat.or_assoc, orPack (dt.utcMonth + 1) dt.utcDate 5 (by norm_num; omega),
      orPack _ _ 9 (by norm_num; omega)]
    norm_num
    omega
  · show (dt.utcHours <<< 11) ||| (dt.utcMinutes <<< 5) ||| (dt.utcSeconds / 2) = _
    rw [Nat.or_assoc, orPack dt.utcMinutes (dt.utcSeconds / 2) 5 (by norm_num; omega),
      orPack _ _ 11 (by norm_num; omega)]
    norm_num
    omega

/-! ## Reading the central directory and end record of a generated buffer -/

theorem readU32_flatten_central (es2 : List ZipEntryRecord) : ∀ (X : List Nat) (i : Nat),
    i < es2.length →
    readU32 ((es2.map centralBytes).flatten ++ X) (centralStart es2 i + 42) =
      (es2.getD i dummyEntry).offset % 4294967296 := by
  induction es2 with
  | nil => intro X i hi; simp at hi
  | cons e' rest ih =>
    intro X i hi
    match i with
    | 0 =>
      have h0 : centralStart (e' :: rest) 0 = 0 := by simp [centralStart]
      have hshape : ((e' :: rest).map centralBytes).flatten ++ X =
          centralBytes e' ++ ((rest.map centralBytes).flatten ++ X) := by simp
      rw [h0, hshape, Nat.zero_add]
      simpa using central_read_offset e' _
    | i + 1 =>
      have hcs : centralStart (e' :: rest) (i + 1) =
          (centralBytes e').length + centralStart rest i := by
        simp [centralStart, List.take_succ_cons]
      have hshape : ((e' :: rest).map centralBytes).flatten ++ X =
          centralBytes e' ++ ((rest.map centralBytes).flatten ++ X) := by simp
      rw [hshape, hcs, show (centralBytes e').length + centralStart rest i + 42 =
        (centralBytes e').length + (centralStart rest i + 42) by omega,
        readU32_append_add, ih X i (by simpa using hi)]
      simp

theorem assignOffsets_map_centralSize (es : List ZipEntryRecord) : ∀ off : Nat,
    (assignOffsets es off).map (fun e => (centralBytes e).length) =
      es.map fun e => (centralBytes e).length := by
  induction es with
  | nil => intro off; rfl
  | cons e es ih =>
    intro off
    simp only [assignOffsets, List.map_cons]
    rw [ih (off + (segmentBytes e).length)]
    simp [centralBytes_length, setOffset_name]

theorem centralStart_via_map (l : List ZipEntryRecord) (i : Nat) :
    centralStart l i = ((l.map fun e => (centralBytes e).length).take i).sum := by
  simp [centralStart, List.map_take]

theorem assignOffsets_centralStart (es : List ZipEntryRecord) (off i : Nat) :
    centralStart (assignOffsets es off) i = centralStart es i := by
  rw [centralStart_via_map, centralStart_via_map, assignOffsets_map_centralSize]

/-- The offset field of the `i`-th central directory record of a generated
archive holds the byte position of entry `i`'s local header (mod 2^32). -/
theorem generate_offset_field (es : List ZipEntryRecord) (i : Nat) (hi : i < es.length) :
    readU32 (zipGenerate es).1 (localLen es + (centralStart es i + 42)) =
      localStart es i % 4294967296 := by
  obtain ⟨hbuf, -⟩ := zipGenerate_eq es
  rw [hbuf, readU32_append_pos _ _ (localLen es) _ (flatten_map_segment_length es),
    show centralStart es i = centralStart (assignOffsets es 0) i from
      (assignOffsets_centralStart es 0 i).symm,
    readU32_flatten_central (assignOffsets es 0) _ i
      (by rw [assignOffsets_length]; exact hi),
    assignOffsets_getD_offset es 0 i hi]
  simp

/-- The four scalar fields the end-of-central-directory record stores. -/
theorem generate_end_fields (es : List ZipEntryRecord) :
    readU16 (zipGenerate es).1 (localLen es + centralLen es + 8) = es.length % 65536 ∧
    readU16 (zipGenerate es).1 (localLen es + centralLen es + 10) = es.length % 65536 ∧
    readU32 (zipGenerate es).1 (localLen es + centralLen es + 12) =
      centralLen es % 4294967296 ∧
    readU32 (zipGenerate es).1 (localLen es + centralLen es + 16) =
      localLen es % 4294967296 := by
  obtain ⟨hbuf, -⟩ := zipGenerate_eq es
  have hclen : (((assignOffsets es 0).map centralBytes).flatten).length = centralLen es := by
    rw [flatten_map_central_length, assignOffsets_centralLen]
  have k16 : ∀ j : Nat, readU16 (zipGenerate es).1 (localLen es + centralLen es + j) =
      readU16 (endRecordBytes es.length (centralLen es) (localLen es)) j := by
    intro j
    rw [hbuf, show localLen es + centralLen es + j = localLen es + (centralLen es + j)
      by omega, readU16_append_pos _ _ (localLen es) _ (flatten_map_segment_length es)]
    exact readU16_append_pos _ _ (centralLen es) j hclen
  have k32 : ∀ j : Nat, readU32 (zipGenerate es).1 (localLen es + centralLen es + j) =
      readU32 (endRecordBytes es.length (centralLen es) (localLen es)) j := by
    intro j
    rw [hbuf, show localLen es + centralLen es + j = localLen es + (centralLen es + j)
      by omega, readU32_append_pos _ _ (localLen es) _ (flatten_map_segment_length es)]
    exact readU32_append_pos _ _ (centralLen es) j hclen
  exact ⟨by rw [k16 8, endRec_read_count1], by rw [k16 10, endRec_read_count2],
    by rw [k32 12, endRec_read_csize], by rw [k32 16, endRec_read_coff]⟩

/-! ## Shape of the hex digest -/

/-- The sixteen lowercase hex digit characters. -/
def hexDigits : List Char :=
  ['0', '1', '2', '3', '4', '5', '6', '7', '8', '9'] ++ ['a', 'b', 'c', 'd', 'e', 'f']

theorem be32_all_lt (w : Nat) : ∀ b ∈ be32 w, b < 256 := by
  intro b hb
  simp [be32] at hb
  rcases hb with rfl | rfl | rfl | rfl <;> omega

theorem sha256Bytes_length (bs : List Nat) : (sha256Bytes bs).length = 32 := by
  simp [sha256Bytes, be32]

theorem sha256Bytes_all_lt (bs : List Nat) : ∀ b ∈ sha256Bytes bs, b < 256 := by
  intro b hb
  simp only [sha256Bytes, List.mem_append] at hb
  rcases hb with ((((((h | h) | h) | h) | h) | h) | h) | h <;> exact be32_all_lt _ b h

theorem toHexChar_mem {n : Nat} (h : n < 16) : toHexChar n ∈ hexDigits := by
  have key : ∀ m : Nat, m < 16 → toHexChar m ∈ hexDigits := by decide
  exact key n h

theorem bytesToHex_length (bs : List Nat) : (bytesToHex bs).length = 2 * bs.length := by
  induction bs with
  | nil => rfl
  | cons b bs ih =>
    simp only [bytesToHex, byteToHex, String.length, List.map_cons, List.flatten_cons,
      List.length_cons] at ih ⊢
    simp at ih ⊢
    omega

theorem bytesToHex_chars (bs : List Nat) (hlt : ∀ b ∈ bs, b < 256) :
    ∀ c ∈ (bytesToHex bs).data, c ∈ hexDigits := by
  intro c hc
  have hc' : c ∈ (bs.map byteToHex).flatten := hc
  rw [List.mem_flatten] at hc'
  obtain ⟨l, hl, hcl⟩ := hc'
  rw [List.mem_map] at hl
  obtain ⟨b, hb, rfl⟩ := hl
  have hblt : b < 256 := hlt b hb
  simp [byteToHex] at hcl
  rcases hcl with rfl | rfl
  · exact toHexChar_mem (by omega)
  · exact toHexChar_mem (by omega)

/-! ## Shape of a single-entry archive, and entries with 2^16-byte names -/

theorem zipGenerate_single (nam dat : List Nat) (now : UtcDate) :
    (zipGenerate [mkZipEntry nam dat now]).1 =
      lfhBytes 20 0 0 (toDosDateTime now).2 (toDosDateTime now).1 (crc32 dat) dat.length
          dat.length nam.length 0 ++
        (nam ++ (dat ++
          (centralBytes { mkZipEntry nam dat now with offset := 0 } ++
            endRecordBytes 1 (46 + nam.length) (30 + nam.length + dat.length)))) := by
  obtain ⟨hbuf, -⟩ := zipGenerate_eq [mkZipEntry nam dat now]
  rw [hbuf]
  simp only [List.map_cons, List.map_nil, List.flatten_cons, List.flatten_nil,
    List.append_nil, List.length_cons, List.length_nil, assignOffsets, centralLen, localLen,
    List.sum_cons, List.sum_nil, centralBytes_length, segmentBytes_length,
    setOffset_name, Nat.add_zero, Nat.zero_add]
  simp only [segmentBytes, localHeaderBytes, mkZipEntry, List.append_assoc]

/-- Parsing a generated archive holding one entry whose name length is a
multiple of 2^16 and whose payload is empty: the truncated name-length
field reads back 0, so the entry parses with an empty name and the actual
name bytes are skipped byte-by-byte until the central directory signature. -/
theorem parse_wideName_empty (nam : List Nat) (now : UtcDate)
    (hlen : nam.length % 65536 = 0)
    (hmem : ∀ b ∈ nam, b % 256 ≠ 80) :
    parseStoredZip (zipGenerate [mkZipEntry nam [] now]).1 = Except.ok [([], [])] := by
  have hshape := zipGenerate_single nam [] now
  simp only [List.nil_append, List.length_nil, Nat.add_zero] at hshape
  have h4 : 4 ≤ (centralBytes { mkZipEntry nam [] now with offset := 0 } ++
      endRecordBytes 1 (46 + nam.length) (30 + nam.length)).length := by
    simp only [List.length_append, centralBytes_length, endRecordBytes_length]
    omega
  have hblen : ((zipGenerate [mkZipEntry nam [] now]).1).length = 98 + 2 * nam.length := by
    rw [hshape]
    simp only [List.length_append, lfhBytes_length, centralBytes_length,
      endRecordBytes_length, setOffset_name, mkZipEntry_name]
    omega
  unfold parseStoredZip
  rw [hblen, hshape]
  rw [parseLoop_rawEntry 20 0 (toDosDateTime now).2 (toDosDateTime now).1 (crc32 []) 0 0
    nam.length 0 (98 + 2 * nam.length) _ []
    (by rw [hlen]; simp)
    (by rw [hlen]; simp)
    (by rw [hlen]
        simp only [Nat.zero_mod, Nat.add_zero, Nat.zero_add, List.take_zero]
        rw [Nat.mod_eq_of_lt (crc32_lt [])])]
  rw [hlen]
  simp only [Nat.zero_mod, Nat.add_zero, Nat.zero_add, List.drop_zero, List.take_zero,
    mapSet]
  rw [show 98 + 2 * nam.length = 98 + nam.length + nam.length by omega,
    parseLoop_skipAll nam _ _ (98 + nam.length) h4 hmem,
    show (98 : Nat) + nam.length = 97 + nam.length + 1 by omega,
    parseLoop_stop _ _ _ h4 (Or.inl (central_read_sig _ _))]

theorem set_append_at_len (A B : List Nat) (b : Nat) :
    (A ++ B).set A.length b = A ++ B.set 0 b := by
  have h := set_append_pos A B A.length 0 b rfl
  simpa using h

/-- Corrupting the first payload byte of an entry whose name length is a
multiple of 2^16 (payload `[0,0,0]`): the parser still reads a payload of
three zero bytes out of the name region, the stored CRC matches it, and the
scan then skips over the rest of the name and the corrupted payload bytes
until the central directory; the parse returns a map instead of an error. -/
theorem parse_wideName_corrupt (nam : List Nat) (now : UtcDate)
    (hlen : nam.length % 65536 = 0)
    (h3 : 3 ≤ nam.length)
    (htake : nam.take 3 = [0, 0, 0])
    (hmem : ∀ b ∈ nam, b % 256 ≠ 80) :
    parseStoredZip
        (((zipGenerate [mkZipEntry nam [0, 0, 0] now]).1).set (30 + nam.length) 1) =
      Except.ok [([], [0, 0, 0])] := by
  have hshape := zipGenerate_single nam [0, 0, 0] now
  rw [show ([0, 0, 0] : List Nat).length = 3 from rfl] at hshape
  have hset : ((zipGenerate [mkZipEntry nam [0, 0, 0] now]).1).set (30 + nam.length) 1 =
      lfhBytes 20 0 0 (toDosDateTime now).2 (toDosDateTime now).1 (crc32 [0, 0, 0]) 3 3
          nam.length 0 ++
        (nam ++ ([1, 0, 0] ++
          (centralBytes { mkZipEntry nam [0, 0, 0] now with offset := 0 } ++
            endRecordBytes 1 (46 + nam.length) (30 + nam.length + 3)))) := by
    rw [hshape, set_append_pos _ _ 30 nam.length 1 (lfhBytes_length _ _ _ _ _ _ _ _ _ _),
      set_append_at_len, List.set_append, if_pos (by norm_num)]
    rfl
  have hc : (centralBytes ({ mkZipEntry nam [0, 0, 0] now with offset := 0 }
      : ZipEntryRecord)).length = 46 + nam.length := by
    rw [centralBytes_length, setOffset_name, mkZipEntry_name]
  have h4 : 4 ≤ (centralBytes { mkZipEntry nam [0, 0, 0] now with offset := 0 } ++
      endRecordBytes 1 (46 + nam.length) (30 + nam.length + 3)).length := by
    simp only [List.length_append, hc, endRecordBytes_length]
    omega
  have hblen : (((zipGenerate [mkZipEntry nam [0, 0, 0] now]).1).set
      (30 + nam.length) 1).length = 101 + 2 * nam.length := by
    rw [List.length_set, hshape]
    simp only [List.length_append, lfhBytes_length, hc, endRecordBytes_length,
      List.length_cons, List.length_nil]
    omega
  unfold parseStoredZip
  rw [hblen, hset]
  have m2 : (0 : Nat) % 65536 = 0 := rfl
  have m3 : (3 : Nat) % 4294967296 = 3 := rfl
  rw [parseLoop_rawEntry 20 0 (toDosDateTime now).2 (toDosDateTime now).1 (crc32 [0, 0, 0])
    3 3 nam.length 0 (101 + 2 * nam.length) _ []
    (by rw [hlen, m2, m3]
        simp only [List.length_append, List.length_cons, List.length_nil, hc,
          endRecordBytes_length]
        omega)
    (by rw [hlen, m2, m3]
        simp only [Nat.zero_add, List.drop_zero]
        rw [List.take_append_of_le_length h3, htake]
        rfl)
    (by rw [hlen, m2, m3]
        simp only [Nat.zero_add, List.drop_zero]
        rw [List.take_append_of_le_length h3, htake,
          Nat.mod_eq_of_lt (crc32_lt [0, 0, 0])])]
  rw [hlen, m2, m3]
  simp only [Nat.zero_add, Nat.add_zero, List.drop_zero, List.take_zero]
  rw [List.take_append_of_le_length h3, htake, List.drop_append_of_le_length h3]
  simp only [mapSet]
  rw [show (101 : Nat) + 2 * nam.length =
      101 + nam.length + (nam.drop 3 ++ [1, 0, 0]).length by
    simp only [List.length_append, List.length_drop, List.length_cons, List.length_nil]
    omega]
  rw [show nam.drop 3 ++ ([1, 0, 0] ++
      (centralBytes { mkZipEntry nam [0, 0, 0] now with offset := 0 } ++
        endRecordBytes 1 (46 + nam.length) (30 + nam.length + 3))) =
      (nam.drop 3 ++ [1, 0, 0]) ++
      (centralBytes { mkZipEntry nam [0, 0, 0] now with offset := 0 } ++
        endRecordBytes 1 (46 + nam.length) (30 + nam.length + 3)) from
    (List.append_assoc _ _ _).symm]
  rw [parseLoop_skipAll (nam.drop 3 ++ [1, 0, 0]) _ _ (101 + nam.length) h4
    (by intro b hb
        rcases List.mem_append.mp hb with h | h
        · exact hmem b (List.mem_of_mem_drop h)
        · simp at h
          rcases h with rfl | rfl <;> omega)]
  rw [show (101 : Nat) + nam.length = 100 + nam.length + 1 by omega,
    parseLoop_stop _ _ _ h4 (Or.inl (central_read_sig _ _))]

/-! ## Claims -/

/-- A fixed "current time" used for concrete archives in witnesses. -/
def dEpoch : UtcDate := ⟨1980, 0, 1, 0, 0, 0⟩

/-- C1 (amended). For every finite list of (name, payload) pairs with
pairwise-distinct names, where additionally every name is shorter than
2^16 bytes and every payload shorter than 2^32 bytes, adding each pair to
a fresh `ZipBuilder` in order and serializing it (`generate`/`build`),
then parsing the resulting buffer with `parseStoredZip`, yields a map
whose key list is exactly the list of names and whose value for each name
is byte-identical to that entry's payload. (The size bounds are forced by
the uint16 name-length and uint32 size header fields; see the
counterexample.) -/
theorem c1_round_trip (pairs : List (List Nat × List Nat)) (now : UtcDate)
    (hnodup : (pairs.map Prod.fst).Nodup)
    (hfits : ∀ q ∈ pairs, q.1.length < 65536 ∧ q.2.length < 4294967296) :
    parseStoredZip (zipGenerate (addAll pairs now)).1 = Except.ok pairs ∧
    ∀ q ∈ pairs, mapLookup pairs q.1 = some q.2 := by
  have hes : addAll pairs now = pairs.map fun q => mkZipEntry q.1 q.2 now := addAll_eq pairs now
  have hwf : ∀ e ∈ addAll pairs now, e.name.length < 65536 ∧ e.size = e.data.length ∧
      e.data.length < 4294967296 ∧ e.crc = crc32 e.data := by
    rw [hes]
    intro e he
    rw [List.mem_map] at he
    obtain ⟨q, hq, rfl⟩ := he
    obtain ⟨h1, h2⟩ := hfits q hq
    exact ⟨h1, rfl, h2, rfl⟩
  have hparse := parse_generate (addAll pairs now) hwf
  have hnames : ((addAll pairs now).map fun e => e.name) = pairs.map Prod.fst := by
    rw [hes, List.map_map]
    rfl
  have hins : insertAll [] (addAll pairs now) = pairs := by
    rw [insertAll_nodup (addAll pairs now) [] (by rw [hnames]; exact hnodup)
      (by intro q hq; simp at hq)]
    rw [hes, List.map_map, List.nil_append]
    have hid : ((fun e => (e.name, e.data)) ∘ fun q : List Nat × List Nat =>
        mkZipEntry q.1 q.2 now) = id := by
      funext q
      simp [mkZipEntry]
    rw [hid, List.map_id]
  exact ⟨by rw [hparse, hins], fun q hq => mapLookup_self_nodup pairs q hq hnodup⟩

theorem c1_round_trip_witness :
    parseStoredZip (zipGenerate (addAll [([97], [1, 2, 3]), ([98], [])] dEpoch)).1 =
      Except.ok [([97], [1, 2, 3]), ([98], [])] :=
  (c1_round_trip [([97], [1, 2, 3]), ([98], [])] dEpoch (by decide) (by decide)).1

/-- C1 counterexample. A single pair whose name is 65536 zero bytes (with
empty payload) has pairwise-distinct names, yet the parse of the written
archive yields the map `{"" ↦ ""}`: the uint16 name-length field stores
65536 mod 2^16 = 0, so the parsed key set is `{""}`, not the original
name. Hence the claim fails as stated for names of 2^16 bytes. -/
theorem c1_counterexample :
    parseStoredZip (zipGenerate (addAll [(List.replicate 65536 0, [])] dEpoch)).1 =
      Except.ok [([], [])] ∧
    ¬ (([] : List Nat) = List.replicate 65536 0) := by
  constructor
  · have hes : addAll [(List.replicate 65536 0, [])] dEpoch =
        [mkZipEntry (List.replicate 65536 0) [] dEpoch] := by
      rw [addAll_eq]
      rfl
    rw [hes]
    exact parse_wideName_empty (List.replicate 65536 0) dEpoch
      (by rw [List.length_replicate])
      (fun b hb => by rw [List.eq_of_mem_replicate hb]; omega)
  · intro h
    have hl := congrArg List.length h
    rw [List.length_replicate] at hl
    simp at hl

/-! ## Corruption detection -/

/-- Parsing a buffer made of well-formed local segments followed by one
segment whose payload has one byte replaced by a different byte value:
the reader reaches that entry with all headers intact and fails its CRC
check, raising the CRC-mismatch error that names the entry. -/
theorem parseLoop_corrupt_middle (A : List ZipEntryRecord) (e : ZipEntryRecord)
    (p b' : Nat) (rest : List Nat)
    (hwfA : ∀ x ∈ A, x.name.length < 65536 ∧ x.size = x.data.length ∧
      x.data.length < 4294967296 ∧ x.crc = crc32 x.data)
    (hn : e.name.length < 65536) (hs : e.size = e.data.length)
    (hdl : e.data.length < 4294967296) (hc : e.crc = crc32 e.data)
    (hp : p < e.data.length) (hbyte : e.data.getD p 0 < 256) (hb' : b' < 256)
    (hne : b' ≠ e.data.getD p 0) :
    parseStoredZip ((A.map segmentBytes).flatten ++
        (localHeaderBytes e ++ (e.data.set p b' ++ rest))) =
      Except.error (ZipError.crcMismatch e.name) := by
  have hA : A.length ≤ ((A.map segmentBytes).flatten).length := by
    rw [flatten_map_segment_length]
    exact length_le_localLen A
  have hnl : e.name.length % 65536 = e.name.length := Nat.mod_eq_of_lt hn
  have hcs : e.size % 4294967296 = e.data.length := by
    rw [hs]
    exact Nat.mod_eq_of_lt hdl
  have hshape : localHeaderBytes e ++ (e.data.set p b' ++ rest) =
      lfhBytes 20 0 0 e.dosTime e.dosDate e.crc e.size e.size e.name.length 0 ++
        (e.name ++ (e.data.set p b' ++ rest)) := by
    simp [localHeaderBytes, List.append_assoc]
  have hname : (e.name ++ (e.data.set p b' ++ rest)).take (e.name.length % 65536) =
      e.name := by
    rw [hnl]
    exact List.take_left e.name _
  have hdropA : (e.name ++ (e.data.set p b' ++ rest)).drop
      (e.name.length % 65536 + 0 % 65536) = e.data.set p b' ++ rest := by
    rw [hnl, show e.name.length + 0 % 65536 = e.name.length by omega]
    exact List.drop_left e.name _
  have hpay : ((e.name ++ (e.data.set p b' ++ rest)).drop
      (e.name.length % 65536 + 0 % 65536)).take (e.size % 4294967296) =
      e.data.set p b' := by
    rw [hdropA, hcs]
    exact List.take_left' (List.length_set e.data p b')
  have hfit : e.name.length % 65536 + 0 % 65536 + e.size % 4294967296 ≤
      (e.name ++ (e.data.set p b' ++ rest)).length := by
    rw [hnl, hcs]
    simp [List.length_set]
  have hsz : (((e.name ++ (e.data.set p b' ++ rest)).drop
      (e.name.length % 65536 + 0 % 65536)).take (e.size % 4294967296)).length =
      e.size % 4294967296 := by
    rw [hpay, hcs]
    exact List.length_set e.data p b'
  have hcrcne : crc32 (((e.name ++ (e.data.set p b' ++ rest)).drop
      (e.name.length % 65536 + 0 % 65536)).take (e.size % 4294967296)) ≠
      e.crc % 4294967296 := by
    rw [hpay, hc, Nat.mod_eq_of_lt (crc32_lt e.data)]
    exact crc32_set_ne e.data p b' hp hbyte hb' (fun h => hne h.symm)
  unfold parseStoredZip
  rw [show ((A.map segmentBytes).flatten ++
      (localHeaderBytes e ++ (e.data.set p b' ++ rest))).length + 1 =
      (((A.map segmentBytes).flatten ++
        (localHeaderBytes e ++ (e.data.set p b' ++ rest))).length + 1 - A.length) +
      A.length by
    have := List.length_append ((A.map segmentBytes).flatten)
      (localHeaderBytes e ++ (e.data.set p b' ++ rest))
    omega]
  rw [parseLoop_entries A _ [] _ hwfA]
  rw [show ((A.map segmentBytes).flatten ++
      (localHeaderBytes e ++ (e.data.set p b' ++ rest))).length + 1 - A.length =
      (((A.map segmentBytes).flatten ++
        (localHeaderBytes e ++ (e.data.set p b' ++ rest))).length - A.length) + 1 by
    have := List.length_append ((A.map segmentBytes).flatten)
      (localHeaderBytes e ++ (e.data.set p b' ++ rest))
    omega]
  rw [hshape, parseLoop_rawCrcErr 20 0 e.dosTime e.dosDate e.crc e.size e.size
    e.name.length 0 _ _ _ hfit hsz hcrcne, hname]

/-- Byte position of offset `p` within entry `i`'s payload region of the
generated archive: the total length of all earlier local segments, plus
the 30 fixed header bytes and the name bytes of entry `i`. -/
def corruptPos (pairs : List (List Nat × List Nat)) (i : Nat) : Nat :=
  ((pairs.take i).map fun q => 30 + q.1.length + q.2.length).sum + 30 +
    (pairs.getD i ([], [])).1.length

theorem getD_map_mk (pairs : List (List Nat × List Nat)) (now : UtcDate) {i : Nat}
    (hi : i < pairs.length) :
    (pairs.map fun q => mkZipEntry q.1 q.2 now).getD i dummyEntry =
      mkZipEntry (pairs.getD i ([], [])).1 (pairs.getD i ([], [])).2 now := by
  rw [List.getD_eq_getElem _ _ (by simpa using hi), List.getElem_map,
    List.getD_eq_getElem _ _ hi]

theorem localLen_cons (e : ZipEntryRecord) (es : List ZipEntryRecord) :
    localLen (e :: es) = (segmentBytes e).length + localLen es := by
  simp [localLen]

theorem localLen_map_mk (l : List (List Nat × List Nat)) (now : UtcDate) :
    localLen (l.map fun q => mkZipEntry q.1 q.2 now) =
      (l.map fun q => 30 + q.1.length + q.2.length).sum := by
  induction l with
  | nil => rfl
  | cons q l ih =>
    rw [List.map_cons, localLen_cons, ih, List.map_cons, List.sum_cons,
      segmentBytes_length, mkZipEntry_name, mkZipEntry_data]

/-- C3 (amended). For every archive written from (name, payload) pairs
whose names are shorter than 2^16 bytes and payloads shorter than 2^32
bytes, replacing any single byte inside the payload region of an entry
with a different byte value makes `parseStoredZip` raise the CRC-mismatch
error naming that entry. (The size bounds are forced by the uint16/uint32
header fields; see the counterexample.) -/
theorem c3_corruption_detected (pairs : List (List Nat × List Nat)) (now : UtcDate)
    (i p b' : Nat)
    (hfits : ∀ q ∈ pairs, q.1.length < 65536 ∧ q.2.length < 4294967296)
    (hi : i < pairs.length)
    (hp : p < (pairs.getD i ([], [])).2.length)
    (hbyte : (pairs.getD i ([], [])).2.getD p 0 < 256)
    (hb' : b' < 256)
    (hne : b' ≠ (pairs.getD i ([], [])).2.getD p 0) :
    parseStoredZip
        (((zipGenerate (addAll pairs now)).1).set (corruptPos pairs i + p) b') =
      Except.error (ZipError.crcMismatch (pairs.getD i ([], [])).1) := by
  have hes : addAll pairs now = pairs.map fun q => mkZipEntry q.1 q.2 now :=
    addAll_eq pairs now
  have hilen : i < (addAll pairs now).length := by
    rw [hes, List.length_map]
    exact hi
  have hqmem : pairs.getD i ([], []) ∈ pairs := by
    rw [List.getD_eq_getElem _ _ hi]
    exact List.getElem_mem hi
  obtain ⟨hq1, hq2⟩ := hfits _ hqmem
  have hE : (addAll pairs now).getD i dummyEntry =
      mkZipEntry (pairs.getD i ([], [])).1 (pairs.getD i ([], [])).2 now := by
    rw [hes]
    exact getD_map_mk pairs now hi
  have hsplites : addAll pairs now = (addAll pairs now).take i ++
      ((addAll pairs now).getD i dummyEntry :: (addAll pairs now).drop (i + 1)) := by
    rw [List.getD_eq_getElem _ _ hilen, ← List.drop_eq_getElem_cons hilen,
      List.take_append_drop]
  obtain ⟨hbuf, -⟩ := zipGenerate_eq (addAll pairs now)
  have hflat : ((addAll pairs now).map segmentBytes).flatten =
      ((((addAll pairs now).take i).map segmentBytes).flatten ++
        (segmentBytes ((addAll pairs now).getD i dummyEntry) ++
          (((addAll pairs now).drop (i + 1)).map segmentBytes).flatten)) := by
    conv_lhs => rw [hsplites]
    simp [List.map_append]
  have hpos : corruptPos pairs i + p =
      ((((addAll pairs now).take i).map segmentBytes).flatten).length +
        (30 + ((addAll pairs now).getD i dummyEntry).name.length + p) := by
    rw [flatten_map_segment_length,
      show (addAll pairs now).take i =
        (pairs.take i).map fun q => mkZipEntry q.1 q.2 now by rw [hes, List.map_take],
      localLen_map_mk, hE, mkZipEntry_name]
    unfold corruptPos
    omega
  have hbufeq : ((zipGenerate (addAll pairs now)).1).set (corruptPos pairs i + p) b' =
      (((addAll pairs now).take i).map segmentBytes).flatten ++
        (localHeaderBytes ((addAll pairs now).getD i dummyEntry) ++
          (((addAll pairs now).getD i dummyEntry).data.set p b' ++
            ((((addAll pairs now).drop (i + 1)).map segmentBytes).flatten ++
              (((assignOffsets (addAll pairs now) 0).map centralBytes).flatten ++
                endRecordBytes (addAll pairs now).length (centralLen (addAll pairs now))
                  (localLen (addAll pairs now)))))) := by
    rw [hbuf, hflat, hpos]
    rw [show ((((addAll pairs now).take i).map segmentBytes).flatten ++
        (segmentBytes ((addAll pairs now).getD i dummyEntry) ++
          (((addAll pairs now).drop (i + 1)).map segmentBytes).flatten)) ++
        (((assignOffsets (addAll pairs now) 0).map centralBytes).flatten ++
          endRecordBytes (addAll pairs now).length (centralLen (addAll pairs now))
            (localLen (addAll pairs now))) =
        (((addAll pairs now).take i).map segmentBytes).flatten ++
        (segmentBytes ((addAll pairs now).getD i dummyEntry) ++
          ((((addAll pairs now).drop (i + 1)).map segmentBytes).flatten ++
            (((assignOffsets (addAll pairs now) 0).map centralBytes).flatten ++
              endRecordBytes (addAll pairs now).length (centralLen (addAll pairs now))
                (localLen (addAll pairs now))))) by simp [List.append_assoc]]
    rw [set_append_pos _ _ _ _ _ rfl]
    rw [show segmentBytes ((addAll pairs now).getD i dummyEntry) ++
        ((((addAll pairs now).drop (i + 1)).map segmentBytes).flatten ++
          (((assignOffsets (addAll pairs now) 0).map centralBytes).flatten ++
            endRecordBytes (addAll pairs now).length (centralLen (addAll pairs now))
              (localLen (addAll pairs now)))) =
        localHeaderBytes ((addAll pairs now).getD i dummyEntry) ++
        (((addAll pairs now).getD i dummyEntry).data ++
          ((((addAll pairs now).drop (i + 1)).map segmentBytes).flatten ++
            (((assignOffsets (addAll pairs now) 0).map centralBytes).flatten ++
              endRecordBytes (addAll pairs now).length (centralLen (addAll pairs now))
                (localLen (addAll pairs now))))) by simp [segmentBytes, List.append_assoc]]
    rw [set_append_pos _ _ _ _ _ (localHeaderBytes_length _)]
    rw [List.set_append, if_pos (by rw [hE, mkZipEntry_data]; exact hp)]
  rw [hbufeq]
  have hcm := parseLoop_corrupt_middle ((addAll pairs now).take i)
    ((addAll pairs now).getD i dummyEntry) p b'
    ((((addAll pairs now).drop (i + 1)).map segmentBytes).flatten ++
      (((assignOffsets (addAll pairs now) 0).map centralBytes).flatten ++
        endRecordBytes (addAll pairs now).length (centralLen (addAll pairs now))
          (localLen (addAll pairs now))))
    (by intro x hx
        have hx' : x ∈ addAll pairs now := List.mem_of_mem_take hx
        rw [hes, List.mem_map] at hx'
        obtain ⟨q, hq, rfl⟩ := hx'
        obtain ⟨ha, hb⟩ := hfits q hq
        exact ⟨ha, rfl, hb, rfl⟩)
    (by rw [hE, mkZipEntry_name]; exact hq1)
    (by rw [hE]; rfl)
    (by rw [hE, mkZipEntry_data]; exact hq2)
    (by rw [hE]; rfl)
    (by rw [hE, mkZipEntry_data]; exact hp)
    (by rw [hE, mkZipEntry_data]; exact hbyte)
    hb'
    (by rw [hE, mkZipEntry_data]; exact hne)
  rw [hcm, hE, mkZipEntry_name]

theorem c3_corruption_detected_witness :
    parseStoredZip
        (((zipGenerate (addAll [([97], [1, 2, 3])] dEpoch)).1).set
          (corruptPos [([97], [1, 2, 3])] 0 + 1) 9) =
      Except.error (ZipError.crcMismatch [97]) :=
  c3_corruption_detected [([97], [1, 2, 3])] dEpoch 0 1 9
    (by decide) (by decide) (by decide) (by decide) (by decide) (by decide)

/-- C3 counterexample to the unamended claim: an entry whose name is
65536 bytes long wraps the uint16 name-length field to 0, so after
replacing the first payload byte (value 0) with 1 the reader still
returns a map instead of raising the CRC-mismatch error: the corrupted
byte lands in what the reader treats as skippable bytes. -/
theorem c3_counterexample :
    parseStoredZip
        (((zipGenerate [mkZipEntry (List.replicate 65536 0) [0, 0, 0] dEpoch]).1).set
          (30 + (List.replicate 65536 (0 : Nat)).length) 1) =
      Except.ok [([], [0, 0, 0])] ∧
    30 + (List.replicate 65536 (0 : Nat)).length = 65566 ∧
    ∀ err : ZipError,
      (Except.ok [(([] : List Nat), [0, 0, 0])] : Except ZipError ZipMap) ≠
        Except.error err := by
  refine ⟨?_, ?_, ?_⟩
  · exact parse_wideName_corrupt (List.replicate 65536 0) dEpoch
      (by rw [List.length_replicate])
      (by rw [List.length_replicate]; omega)
      (by rw [List.take_replicate, show (3 ⊓ 65536) = 3 by omega]; rfl)
      (fun b hb => by rw [List.eq_of_mem_replicate hb]; omega)
  · rw [List.length_replicate]
  · intro err h
    exact Except.noConfusion h

/-! ## SHA-256 known answers -/

/-- C2. `calculateSha256` maps the empty string to the FIPS 180-4 digest
of the empty message and the string "abc" to the FIPS 180-4 digest of
"abc", character for character. -/
theorem c2_sha256_known_answers :
    calculateSha256 "" =
      "e3b0c44298fc1c149afbf4c8996fb92427ae41e4649b934ca495991b7852b855" ∧
    calculateSha256 "abc" =
      "ba7816bf8f01cfea414140de5dae2223b00361a396177a9cb410ff61f20015ad" := by
  constructor <;> decide

/-! ## Layout invariants of the generated buffer -/

/-- C4 (amended). In every generated buffer, the two entry-count fields of
the end record hold the entry count reduced modulo 2^16, the
central-directory-size field holds the total central-record byte length
reduced modulo 2^32, the central-directory-offset field holds the total
local-segment byte length reduced modulo 2^32, and each central record's
offset field holds that entry's actual local-header byte offset reduced
modulo 2^32. -/
theorem c4_layout_invariants (es : List ZipEntryRecord) :
    readU16 (zipGenerate es).1 (localLen es + centralLen es + 8) = es.length % 65536 ∧
    readU16 (zipGenerate es).1 (localLen es + centralLen es + 10) = es.length % 65536 ∧
    readU32 (zipGenerate es).1 (localLen es + centralLen es + 12) =
      centralLen es % 4294967296 ∧
    readU32 (zipGenerate es).1 (localLen es + centralLen es + 16) =
      localLen es % 4294967296 ∧
    ∀ i, i < es.length →
      readU32 (zipGenerate es).1 (localLen es + (centralStart es i + 42)) =
        localStart es i % 4294967296 :=
  ⟨(generate_end_fields es).1, (generate_end_fields es).2.1,
    (generate_end_fields es).2.2.1, (generate_end_fields es).2.2.2,
    fun i hi => generate_offset_field es i hi⟩

theorem c4_layout_invariants_witness :
    readU32 (zipGenerate [dummyEntry]).1
        (localLen [dummyEntry] + (centralStart [dummyEntry] 0 + 42)) =
      localStart [dummyEntry] 0 % 4294967296 :=
  (c4_layout_invariants [dummyEntry]).2.2.2.2 0 (by decide)

/-- C4 counterexample to the unamended claim: an archive of 65536 empty
entries has entry-count fields that read 0, not 65536, because the
uint16 field wraps. -/
theorem c4_counterexample :
    readU16 (zipGenerate (addAll (List.replicate 65536 ([], [])) dEpoch)).1
        (localLen (addAll (List.replicate 65536 ([], [])) dEpoch) +
          centralLen (addAll (List.replicate 65536 ([], [])) dEpoch) + 8) = 0 ∧
    (addAll (List.replicate 65536 ([], [])) dEpoch).length = 65536 ∧
    (0 : Nat) ≠ 65536 := by
  have hlen : (addAll (List.replicate 65536 ([], [])) dEpoch).length = 65536 := by
    rw [addAll_eq, List.length_map, List.length_replicate]
  refine ⟨?_, hlen, by omega⟩
  rw [(generate_end_fields (addAll (List.replicate 65536 ([], [])) dEpoch)).1, hlen]

/-! ## DOS date-time codec behaviour -/

/-- C5. `toDosDateTime` is total, clamps the UTC year into [1980, 2107],
and packs `dosDate = ((year-1980)<<9) | ((month+1)<<5) | day` and
`dosTime = (hour<<11) | (minute<<5) | (second/2)` from the UTC
components; the year bits of 1975-01-01 encode 1980 and those of
2200-01-01 encode 2107. -/
theorem c5_dos_datetime (dt : UtcDate) (hm : dt.utcMonth ≤ 11) (hd : dt.utcDate ≤ 31)
    (hh : dt.utcHours ≤ 23) (hmin : dt.utcMinutes ≤ 59) (hsec : dt.utcSeconds ≤ 59) :
    (1980 ≤ clampYear dt.utcFullYear ∧ clampYear dt.utcFullYear ≤ 2107) ∧
    (toDosDateTime dt).1 = (clampYear dt.utcFullYear - 1980).toNat * 512 +
      (dt.utcMonth + 1) * 32 + dt.utcDate ∧
    (toDosDateTime dt).2 = dt.utcHours * 2048 + dt.utcMinutes * 32 + dt.utcSeconds / 2 ∧
    (toDosDateTime dt).1 / 512 = (clampYear dt.utcFullYear - 1980).toNat ∧
    (toDosDateTime ⟨1975, 0, 1, 0, 0, 0⟩).1 / 512 = 0 ∧
    (toDosDateTime ⟨2200, 0, 1, 0, 0, 0⟩).1 / 512 = 127 := by
  obtain ⟨h1, h2⟩ := toDosDateTime_arith dt hm hd hh hmin hsec
  refine ⟨⟨?_, ?_⟩, h1, h2, ?_, by decide, by decide⟩
  · unfold clampYear; split_ifs <;> omega
  · unfold clampYear; split_ifs <;> omega
  · rw [h1]; omega

theorem c5_dos_datetime_witness :
    (toDosDateTime ⟨2200, 0, 1, 0, 0, 0⟩).1 / 512 = 127 :=
  (c5_dos_datetime ⟨2200, 0, 1, 0, 0, 0⟩ (by decide) (by decide) (by decide) (by decide)
    (by decide)).2.2.2.2.2

/-! ## What the builder records for an added file -/

/-- C6 (amended). The cited `ZipBuilder.file` records the entry name
verbatim — no backslash normalization, no leading-slash stripping — and
stores the payload bytes unchanged, appending exactly one entry. (The
normalization the claim describes belongs to the other builder's
`addFile`; see the counterexample.) -/
theorem c6_file_records_verbatim (st : List ZipEntryRecord) (nam content : List Nat)
    (now : UtcDate) :
    (zipFile st nam content now).map ZipEntryRecord.name =
      st.map ZipEntryRecord.name ++ [nam] ∧
    (zipFile st nam content now).map ZipEntryRecord.data =
      st.map ZipEntryRecord.data ++ [content] ∧
    (zipFile st nam content now).length = st.length + 1 := by
  refine ⟨?_, ?_, ?_⟩ <;> simp [zipFile, mkZipEntry]

/-- C6 counterexample to the unamended claim: for the path bytes
`[92, 97]` ("\a"), `ZipBuilder.file` records the name `[92, 97]` with the
backslash kept, whereas the normalization the claim describes would
record `[97]`. -/
theorem c6_counterexample :
    (zipFile [] [92, 97] [7] dEpoch).map ZipEntryRecord.name = [[92, 97]] ∧
    addFileNormalize [92, 97] = [97] ∧
    ¬ ((zipFile [] [92, 97] [7] dEpoch).map ZipEntryRecord.name =
        [addFileNormalize [92, 97]]) := by
  refine ⟨?_, ?_, ?_⟩ <;> decide

/-! ## Serialization is a pure read -/

/-- The observable state of one builder entry: everything except the
offset field the source mutates during `generate`. -/
def obsOf (e : ZipEntryRecord) : List Nat × List Nat × Nat × Nat × Nat × Nat :=
  (e.name, e.data, e.crc, e.size, e.dosDate, e.dosTime)

theorem assignOffsets_map_obsOf (es : List ZipEntryRecord) : ∀ off : Nat,
    (assignOffsets es off).map obsOf = es.map obsOf := by
  induction es with
  | nil => intro off; rfl
  | cons e es ih => intro off; simp [assignOffsets, ih, obsOf]

theorem assignOffsets_localLen (es : List ZipEntryRecord) (off : Nat) :
    localLen (assignOffsets es off) = localLen es := by
  unfold localLen
  rw [show (assignOffsets es off).map (fun e => (segmentBytes e).length) =
      ((assignOffsets es off).map segmentBytes).map List.length by
        rw [List.map_map]; rfl,
    assignOffsets_map_segmentBytes, List.map_map]
  rfl

/-- C7. `generate` only resolves the offset fields: the names, payloads,
CRCs, sizes and timestamps of the builder's entries are unchanged, and
calling `generate` a second time on the post-`generate` entry list
returns a byte-identical buffer. -/
theorem c7_generate_pure (es : List ZipEntryRecord) :
    ((zipGenerate es).2).map obsOf = es.map obsOf ∧
    (zipGenerate ((zipGenerate es).2)).1 = (zipGenerate es).1 := by
  obtain ⟨hbuf, hsnd⟩ := zipGenerate_eq es
  constructor
  · rw [hsnd]; exact assignOffsets_map_obsOf es 0
  · obtain ⟨hbuf2, -⟩ := zipGenerate_eq ((zipGenerate es).2)
    rw [hbuf2, hbuf, hsnd, assignOffsets_map_segmentBytes, assignOffsets_idem,
      assignOffsets_length, assignOffsets_centralLen, assignOffsets_localLen]

/-! ## Shape of every digest, and the legacy fixture -/

/-- C8. Every digest the hash function returns is exactly 64 lowercase
hexadecimal characters; in particular `calculateSha256("legacy")` is the
64-character string the repository's test fixture records, not a
66-character value. -/
theorem c8_digest_is_64_hex :
    (∀ bs : List Nat, (calculateSha256Bytes bs).length = 64 ∧
      ∀ c ∈ (calculateSha256Bytes bs).data, c ∈ hexDigits) ∧
    calculateSha256 "legacy" =
      "c49fea7425fa7f8699897a97c159c6690267d9003bb78c53fafa8fc15c325d84" ∧
    (calculateSha256 "legacy").length = 64 := by
  refine ⟨fun bs => ⟨?_, ?_⟩, by decide, by decide⟩
  · show (bytesToHex (sha256Bytes bs)).length = 64
    rw [bytesToHex_length, sha256Bytes_length]
  · exact bytesToHex_chars (sha256Bytes bs) (sha256Bytes_all_lt bs)

/-! ## Duplicate names -/

theorem find?_name_map (pairs : List (List Nat × List Nat)) (now : UtcDate) (n : List Nat) :
    ((pairs.map fun q => mkZipEntry q.1 q.2 now).find? fun e => decide (e.name = n)).map
        (fun e => e.data) =
      (pairs.find? fun q => decide (q.1 = n)).map Prod.snd := by
  induction pairs with
  | nil => rfl
  | cons q rest ih =>
    by_cases h : q.1 = n
    · simp [List.find?_cons, mkZipEntry_name, mkZipEntry_data, h, mkZipEntry]
    · simp only [List.map_cons, List.find?_cons, mkZipEntry_name,
        show (decide (q.1 = n)) = false by simp [h]]
      exact ih

/-- C9. Duplicate names: every occurrence is serialized (the entry list
keeps one entry per added pair, in order, and the local-segment bytes sum
over all of them), while the parsed map binds each name to the payload of
its last occurrence (the latest added pair with that name). -/
theorem c9_duplicates (pairs : List (List Nat × List Nat)) (now : UtcDate)
    (hfits : ∀ q ∈ pairs, q.1.length < 65536 ∧ q.2.length < 4294967296) :
    (addAll pairs now).length = pairs.length ∧
    (addAll pairs now).map ZipEntryRecord.name = pairs.map Prod.fst ∧
    localLen (addAll pairs now) = (pairs.map fun q => 30 + q.1.length + q.2.length).sum ∧
    parseStoredZip (zipGenerate (addAll pairs now)).1 =
      Except.ok (insertAll [] (addAll pairs now)) ∧
    ∀ n : List Nat,
      mapLookup (insertAll [] (addAll pairs now)) n =
        (pairs.reverse.find? fun q => decide (q.1 = n)).map Prod.snd := by
  have hes := addAll_eq pairs now
  refine ⟨?_, ?_, ?_, ?_, ?_⟩
  · rw [hes, List.length_map]
  · rw [hes, List.map_map]
    rfl
  · rw [hes, localLen_map_mk]
  · apply parse_generate
    intro e he
    rw [hes, List.mem_map] at he
    obtain ⟨q, hq, rfl⟩ := he
    obtain ⟨ha, hb⟩ := hfits q hq
    exact ⟨ha, rfl, hb, rfl⟩
  · intro n
    rw [mapLookup_insertAll, show mapLookup ([] : ZipMap) n = none from rfl, Option.or_none,
      hes, show ((pairs.map fun q => mkZipEntry q.1 q.2 now).reverse) =
        pairs.reverse.map fun q => mkZipEntry q.1 q.2 now by simp]
    exact find?_name_map pairs.reverse now n

theorem c9_duplicates_witness :
    mapLookup (insertAll [] (addAll [([97], [1]), ([97], [2])] dEpoch)) [97] = some [2] :=
  ((c9_duplicates [([97], [1]), ([97], [2])] dEpoch (by decide)).2.2.2.2 [97]).trans
    (by decide)

/-! ## The truncation guard -/

/-- C10. Whenever a local file header declares name-length, extra-length
and compressed-size fields whose payload end lies past the end of the
buffer, the reader raises the explicit truncation error before slicing —
both at the top level and from any loop state. -/
theorem c10_truncation_guard (v fl tim dat cr cs us nl el : Nat) (body : List Nat)
    (htr : body.length < nl % 65536 + el % 65536 + cs % 4294967296) :
    parseStoredZip (lfhBytes v fl 0 tim dat cr cs us nl el ++ body) =
      Except.error ZipError.truncated ∧
    ∀ (fuel : Nat) (acc : ZipMap),
      parseLoop (fuel + 1) (lfhBytes v fl 0 tim dat cr cs us nl el ++ body) acc =
        Except.error ZipError.truncated := by
  refine ⟨?_, fun fuel acc =>
    parseLoop_rawTruncated v fl tim dat cr cs us nl el fuel body acc htr⟩
  unfold parseStoredZip
  rw [show (lfhBytes v fl 0 tim dat cr cs us nl el ++ body).length + 1 =
    (30 + body.length) + 1 by simp [lfhBytes_length]]
  exact parseLoop_rawTruncated v fl tim dat cr cs us nl el (30 + body.length) body [] htr

theorem c10_truncation_guard_witness :
    parseStoredZip (lfhBytes 20 0 0 0 0 0 5 5 0 0 ++ []) =
      Except.error ZipError.truncated :=
  (c10_truncation_guard 20 0 0 0 0 5 5 0 0 [] (by decide)).1
